import Mathlib

/-!
Verification of the network-safety core of the hf-mcp-server repository:
the address classifier and rebinding guard (`ip-policy`), the URL policy
engine (`url-policy`), the redirect-following safe request engine
(`safe-fetch`), the fetch profiles, the proxy tool registry
(`proxy-tools-config`) and the Gradio replica-URL rewriting of the
upstream call bridge.

The TypeScript sources are embedded shallowly: JavaScript strings are
modelled as `List Char`, `Number.parseInt` / `String.prototype.split` /
`decodeURIComponent` and the few regular expressions used by the code are
modelled by executable Lean functions, thrown exceptions become `Option` /
`Except` values, and `process.env` reads become explicit parameters.
-/

set_option maxRecDepth 1000000

deriving instance DecidableEq for Except

namespace HfMcp

/-- Character list standing for a JavaScript string. -/
abbrev Chars := List Char

/-! ## JavaScript string and number primitives -/

/-- ASCII whitespace characters recognised by the JS `trim` / `\s` class
(astral whitespace is irrelevant to the inputs handled here). -/
def isJsWhitespace (c : Char) : Bool :=
  c == ' ' || c == '\t' || c == '\n' || c == '\r' || c == '\x0b' || c == '\x0c'

/-- ASCII lowercasing, as `String.prototype.toLowerCase` acts on the
ASCII hostnames and header names handled by this code. -/
def lowerL (l : Chars) : Chars := l.map Char.toLower

/-- ASCII uppercasing, as `String.prototype.toUpperCase` acts on HTTP
method names. -/
def upperL (l : Chars) : Chars := l.map Char.toUpper

/-- Drop a matching run from the end of a list. -/
def dropTrailing (p : Char → Bool) (l : Chars) : Chars :=
  (l.reverse.dropWhile p).reverse

/-- JS `String.prototype.trim`. -/
def jsTrim (l : Chars) : Chars :=
  dropTrailing isJsWhitespace (l.dropWhile isJsWhitespace)

/-- JS `String.prototype.split` with a one-character separator:
every occurrence splits, empty pieces are kept. -/
def splitChar (sep : Char) : Chars → List Chars
  | [] => [[]]
  | c :: t =>
    if c = sep then [] :: splitChar sep t
    else
      match splitChar sep t with
      | h :: r => (c :: h) :: r
      | [] => [[c]]

/-- Worker for `splitSeq` with explicit fuel; the fuel in `splitSeq`
always suffices (`splitSeqCore_fuel_irrel`). -/
def splitSeqCore (sep : Chars) : Nat → Chars → List Chars
  | 0, l => [l]
  | _ + 1, [] => [[]]
  | fuel + 1, c :: t =>
    if sep ≠ [] ∧ sep.isPrefixOf (c :: t) then
      [] :: splitSeqCore sep fuel ((c :: t).drop sep.length)
    else
      match splitSeqCore sep fuel t with
      | h :: r => (c :: h) :: r
      | [] => [[c]]

/-- JS `String.prototype.split` with a (nonempty) string separator,
matching left to right without overlap. -/
def splitSeq (sep : Chars) (l : Chars) : List Chars :=
  splitSeqCore sep (l.length + 1) l

/-- Index of the last occurrence of a character (JS `lastIndexOf`,
with `none` for the JS result `-1`). -/
def lastIndexOfChar (c : Char) : Chars → Option Nat
  | [] => none
  | a :: t =>
    match lastIndexOfChar c t with
    | some i => some (i + 1)
    | none => if a = c then some 0 else none

/-- Value of a hexadecimal digit character (either case). -/
def hexVal (c : Char) : Option Nat :=
  if '0' ≤ c ∧ c ≤ '9' then some (c.toNat - '0'.toNat)
  else if 'a' ≤ c ∧ c ≤ 'f' then some (c.toNat - 'a'.toNat + 10)
  else if 'A' ≤ c ∧ c ≤ 'F' then some (c.toNat - 'A'.toNat + 10)
  else none

/-- Value of a digit character in the given radix (10 or 16 here). -/
def digitVal (radix : Nat) (c : Char) : Option Nat :=
  match hexVal c with
  | some v => if v < radix then some v else none
  | none => none

/-- Sign handling of `Number.parseInt`: consume one optional `+`/`-`. -/
def jsSign : Chars → Int × Chars
  | '-' :: t => (-1, t)
  | '+' :: t => (1, t)
  | l => (1, l)

/-- Radix-16 `0x`/`0X` marker stripping of `Number.parseInt`. -/
def jsStrip0x : Chars → Chars
  | '0' :: 'x' :: t => t
  | '0' :: 'X' :: t => t
  | l => l

/-- JS `Number.parseInt(s, radix)` for radix 10 or 16: skip leading
whitespace, an optional sign, for radix 16 an optional `0x`, then read the
longest digit run, ignoring anything after it; `none` models `NaN`. -/
def jsParseInt (radix : Nat) (s : Chars) : Option Int :=
  let signed := jsSign (s.dropWhile isJsWhitespace)
  let s3 := if radix = 16 then jsStrip0x signed.2 else signed.2
  let ds := s3.takeWhile (fun c => (digitVal radix c).isSome)
  if ds.isEmpty then none
  else
    some (signed.1 * (ds.foldl (fun a c => a * radix + ((digitVal radix c).getD 0)) 0 : Nat))

/-- Bitwise AND computed bit by bit with explicit fuel; models the JS
`&` operator on the (at most 128-bit) values appearing in this code.
`natAndCore 128` agrees with `Nat.land` on such values but, unlike
`Nat.land`, reduces inside the kernel. -/
def natAndCore : Nat → Nat → Nat → Nat
  | 0, _, _ => 0
  | f + 1, a, b =>
    (if a % 2 = 1 ∧ b % 2 = 1 then 1 else 0) + 2 * natAndCore f (a / 2) (b / 2)

/-- Bitwise AND of values below `2 ^ 128`. -/
def natAnd (a b : Nat) : Nat := natAndCore 128 a b

/-- Digit rendering worker with explicit fuel (the fuel in `renderDec` /
`renderHex` always suffices, see `renderDecCore_fuel_irrel`). -/
def renderDecCore : Nat → Nat → Chars
  | 0, _ => []
  | f + 1, n =>
    if n < 10 then [Nat.digitChar n]
    else renderDecCore f (n / 10) ++ [Nat.digitChar (n % 10)]

/-- JS `Number.prototype.toString()` (decimal) on a natural number. -/
def renderDec (n : Nat) : Chars := renderDecCore (n + 1) n

/-- Hexadecimal rendering worker with explicit fuel. -/
def renderHexCore : Nat → Nat → Chars
  | 0, _ => []
  | f + 1, n =>
    if n < 16 then [Nat.digitChar n]
    else renderHexCore f (n / 16) ++ [Nat.digitChar (n % 16)]

/-- JS `Number.prototype.toString(16)` (lowercase hex) on a natural number. -/
def renderHex (n : Nat) : Chars := renderHexCore (n + 1) n

/-! ## Address classifier and rebinding guard (`ip-policy.ts`) -/

/-- Policy rejection reasons; each constructor corresponds to one `throw`
site of `url-policy.ts`. -/
inductive PolicyError where
  | protocolNotAllowed (protocol : String)
  | credentialsNotAllowed
  | hostnameNotAllowed (hostname : String)
  | portNotAllowed (protocol : String)
  | decodeInvalidPercentEncoding
  | pathInvalidPercentEncoding
  | pathEncodedSeparators
  | pathDotSegments
  | pathDoubleEncoding
  | pathMissingRequiredStart (required : String)
  | queryNotAllowed
  | queryParamNotAllowed (key : String)
  | customViolation (message : String)
  deriving DecidableEq, Repr

/-- Errors thrown by the network layer (`ip-policy.ts`, `safe-fetch.ts`);
each constructor corresponds to one `throw` site. -/
inductive FetchError where
  | invalidIp (ip : String)
  | hostnameRequired
  | noDnsRecords (host : Chars)
  | addressBlockedLiteral (ip : Chars)
  | addressBlockedHost (host : Chars) (addr : String)
  | policyViolation (e : PolicyError)
  | maxRedirectsNegative
  | redirectLimitExceeded (maxRedirects : Int)
  | redirectLocationMissing (status : Nat)
  | invalidRedirectUrl (location : String)
  | modelFuelExhausted
  deriving DecidableEq, Repr

/-- `normalizeHostname` of `ip-policy.ts`: trim, lowercase, strip
trailing dots. -/
def ipNormalizeHostname (l : Chars) : Chars :=
  dropTrailing (· = '.') (lowerL (jsTrim l))

/-- `getInternalAddressHostAllowlist`: parse the
`ALLOW_INTERNAL_ADDRESS_HOSTS` environment value (the parameter models
`process.env`; `none` and the empty string are both falsy). -/
def getInternalAddressHostAllowlist (envRaw : Option String) : List Chars :=
  match envRaw with
  | none => []
  | some raw =>
    if raw = "" then []
    else ((splitChar ',' raw.data).map ipNormalizeHostname).filter (· ≠ [])

/-- `hostnameMatchesPattern`: exact match, or `*.domain` matching the
domain itself and any subdomain. -/
def hostnameMatchesPattern (hostname pattern : Chars) : Bool :=
  match pattern with
  | '*' :: '.' :: baseDomain =>
    if baseDomain = [] then false
    else hostname = baseDomain || ('.' :: baseDomain).isSuffixOf hostname
  | _ => hostname = pattern

/-- `isInternalAddressAllowedForHostname`. -/
def isInternalAddressAllowedForHostname (envRaw : Option String) (hostname : Chars) : Bool :=
  let normalizedHostname := ipNormalizeHostname hostname
  if normalizedHostname = [] then false
  else
    let allowlist := getInternalAddressHostAllowlist envRaw
    if allowlist = [] then false
    else allowlist.any (hostnameMatchesPattern normalizedHostname)

/-- `normalizeIpLiteral`: strip one pair of surrounding brackets. -/
def normalizeIpLiteral (l : Chars) : Chars :=
  if l.head? = some '[' ∧ l.getLast? = some ']' then (l.drop 1).dropLast else l

/-- `parseIpv4ToInt`; `none` models the thrown `Invalid IPv4 address`. -/
def parseIpv4ToIntL (l : Chars) : Option Nat :=
  let parts := (splitChar '.' l).map (jsParseInt 10)
  if parts.length ≠ 4 then none
  else if parts.any (fun p => match p with | none => true | some v => v < 0 ∨ 255 < v) then none
  else some (parts.foldl (fun acc p => acc * 256 + (p.getD 0).toNat) 0)

/-- `ipv4InRange`: the range bounds in the source are dotted-quad
constants that always parse, so the mismatch arm is unreachable there. -/
def ipv4InRangeL (value : Nat) (start stop : String) : Bool :=
  match parseIpv4ToIntL start.data, parseIpv4ToIntL stop.data with
  | some s, some e => decide (s ≤ value ∧ value ≤ e)
  | _, _ => false

/-- `isIpv4InternalOrReserved`; `none` models a parse failure throw. -/
def isIpv4InternalOrReservedL (l : Chars) : Option Bool :=
  (parseIpv4ToIntL l).map (fun value =>
    ipv4InRangeL value "0.0.0.0" "0.255.255.255" ||
    ipv4InRangeL value "10.0.0.0" "10.255.255.255" ||
    ipv4InRangeL value "100.64.0.0" "100.127.255.255" ||
    ipv4InRangeL value "127.0.0.0" "127.255.255.255" ||
    ipv4InRangeL value "169.254.0.0" "169.254.255.255" ||
    ipv4InRangeL value "172.16.0.0" "172.31.255.255" ||
    ipv4InRangeL value "192.0.0.0" "192.0.0.255" ||
    ipv4InRangeL value "192.0.2.0" "192.0.2.255" ||
    ipv4InRangeL value "192.88.99.0" "192.88.99.255" ||
    ipv4InRangeL value "192.168.0.0" "192.168.255.255" ||
    ipv4InRangeL value "198.18.0.0" "198.19.255.255" ||
    ipv4InRangeL value "198.51.100.0" "198.51.100.255" ||
    ipv4InRangeL value "203.0.113.0" "203.0.113.255" ||
    ipv4InRangeL value "224.0.0.0" "239.255.255.255" ||
    ipv4InRangeL value "240.0.0.0" "255.255.255.255")

/-- The embedded-IPv4 absorption step of `parseIpv6ToBigInt`: when the
(zone-stripped) literal contains a dot, the part after the last colon is
parsed as IPv4 and replaced by its two hexadecimal 16-bit groups. -/
def ipv6AbsorbV4 (zoneStripped : Chars) : Option Chars :=
  if zoneStripped.contains '.' then
    match lastIndexOfChar ':' zoneStripped with
    | none => none
    | some lastColon =>
      match parseIpv4ToIntL (zoneStripped.drop (lastColon + 1)) with
      | none => none
      | some ipv4Value =>
        some (zoneStripped.take lastColon ++
          ':' :: renderHex (natAnd (ipv4Value >>> 16) 0xffff) ++
          ':' :: renderHex (natAnd ipv4Value 0xffff))
  else some zoneStripped

/-- The group list of one side of a `::` split: nonempty colon-separated
parts (`split(':').filter(Boolean)` applied to a truthy piece). -/
def ipv6SideGroups (piece : Option Chars) : List Chars :=
  match piece with
  | some h => if h = [] then [] else (splitChar ':' h).filter (· ≠ [])
  | none => []

/-- The final segment fold of `parseIpv6ToBigInt`: parse each group as a
16-bit hexadecimal and accumulate. -/
def ipv6FoldSegments (start : Option Nat) (full : List Chars) : Option Nat :=
  full.foldl (fun acc part =>
    match acc with
    | none => none
    | some v =>
      match jsParseInt 16 part with
      | none => none
      | some seg =>
        if seg < 0 ∨ 0xffff < seg then none
        else some ((v <<< 16) + seg.toNat)) start

/-- The group-structure step of `parseIpv6ToBigInt`, applied to the
working form after IPv4 absorption. -/
def ipv6FromWorking (working : Chars) : Option Nat :=
  let pieces := splitSeq [':', ':'] working
  if 2 < pieces.length then none
  else
    let left := ipv6SideGroups pieces.head?
    let right := ipv6SideGroups (pieces.get? 1)
    let missingCount : Int := 8 - (left.length + right.length)
    if pieces.length = 1 ∧ missingCount ≠ 0 then none
    else if missingCount < 0 then none
    else
      let full := left ++ List.replicate missingCount.toNat ['0'] ++ right
      if full.length ≠ 8 then none
      else ipv6FoldSegments (some 0) full

/-- `parseIpv6ToBigInt`; `none` models the thrown `Invalid IPv6 address`. -/
def parseIpv6ToBigIntL (l : Chars) : Option Nat :=
  match ipv6AbsorbV4 (l.takeWhile (· ≠ '%')) with
  | none => none
  | some working => ipv6FromWorking working

/-- `isIpv6InCidr`. -/
def isIpv6InCidr (ipValue prefixValue : Nat) (prefixLength : Nat) : Bool :=
  let hostBits := 128 - prefixLength
  let mask := ((1 <<< prefixLength) - 1) <<< hostBits
  decide (natAnd ipValue mask = natAnd prefixValue mask)

/-- `isIpv6InternalOrReserved`; the IPv4-mapped branch re-renders the low
32 bits as a dotted quad and recurses into the IPv4 classifier, exactly
as the source does. -/
def isIpv6InternalOrReservedL (l : Chars) : Option Bool :=
  match parseIpv6ToBigIntL l with
  | none => none
  | some value =>
    if value = 0 ∨ value = 1 then some true
    else if value >>> 32 = 0xffff then
      let ipv4Value := natAnd value 0xffffffff
      let octet1 := natAnd (ipv4Value >>> 24) 0xff
      let octet2 := natAnd (ipv4Value >>> 16) 0xff
      let octet3 := natAnd (ipv4Value >>> 8) 0xff
      let octet4 := natAnd ipv4Value 0xff
      isIpv4InternalOrReservedL
        (renderDec octet1 ++ '.' :: renderDec octet2 ++
          '.' :: renderDec octet3 ++ '.' :: renderDec octet4)
    else
      some (isIpv6InCidr value (0xfc00 <<< 112) 7 ||
        isIpv6InCidr value (0xfe80 <<< 112) 10 ||
        isIpv6InCidr value (0xff00 <<< 112) 8 ||
        isIpv6InCidr value (0x20010db8 <<< 96) 32 ||
        isIpv6InCidr value (0x20010010 <<< 96) 28)

/-- `detectIpVersion`: 4 when IPv4 parsing succeeds, else 6 when IPv6
parsing succeeds, else 0. -/
def detectIpVersionL (candidate : Chars) : Nat :=
  if (parseIpv4ToIntL candidate).isSome then 4
  else if (parseIpv6ToBigIntL candidate).isSome then 6
  else 0

/-- `isIpInternalOrReserved`; `none` models the thrown `Invalid IP address`. -/
def isIpInternalOrReserved (ip : String) : Option Bool :=
  let normalizedIp := normalizeIpLiteral ip.data
  match detectIpVersionL normalizedIp with
  | 4 => isIpv4InternalOrReservedL normalizedIp
  | 6 => isIpv6InternalOrReservedL normalizedIp
  | _ => none

/-- Options of `assertExternalAddress`. -/
structure ExternalAddressOptions where
  allowDnsRebindMitigation : Bool := true

/-- The address-checking loop bodies of `assertExternalAddress`: walk a
resolved address list, failing on the first internal/reserved address
unless the hostname allowlist override applies (the short-circuit order
of `isIpInternalOrReserved(address) && !allowInternalAddress` means an
unparseable address always throws). -/
def checkResolvedAddresses (allowInternalAddress : Bool) (host : Chars) :
    List String → Except FetchError Unit
  | [] => .ok ()
  | address :: rest =>
    match isIpInternalOrReserved address with
    | none => .error (.invalidIp address)
    | some internal =>
      if internal ∧ ¬allowInternalAddress then .error (.addressBlockedHost host address)
      else checkResolvedAddresses allowInternalAddress host rest

/-- `assertExternalAddress` of `ip-policy.ts`.  The two `lookupAll`
results are passed in as `lookup1` / `lookup2` (the DNS resolver is
external to this code), and `envAllowlist` models the
`ALLOW_INTERNAL_ADDRESS_HOSTS` environment variable. -/
def assertExternalAddress (envAllowlist : Option String) (lookup1 lookup2 : List String)
    (hostname : String) (options : ExternalAddressOptions) : Except FetchError Unit :=
  let normalized := ipNormalizeHostname hostname.data
  if normalized = [] then .error .hostnameRequired
  else
    let allowInternalAddress := isInternalAddressAllowedForHostname envAllowlist normalized
    let ipLiteral := normalizeIpLiteral normalized
    if detectIpVersionL ipLiteral ≠ 0 then
      match isIpInternalOrReserved (String.mk ipLiteral) with
      | none => .error (.invalidIp (String.mk ipLiteral))
      | some true => .error (.addressBlockedLiteral ipLiteral)
      | some false => .ok ()
    else
      if lookup1 = [] then .error (.noDnsRecords normalized)
      else
        match checkResolvedAddresses allowInternalAddress normalized lookup1 with
        | .error e => .error e
        | .ok () =>
          if options.allowDnsRebindMitigation then
            checkResolvedAddresses allowInternalAddress normalized lookup2
          else .ok ()

/-! ## URL policy engine (`url-policy.ts`) -/

/-- A WHATWG `URL` value as consumed by the policy engine: the components
the engine reads.  Values are stated in already-parsed form (the parser
normalises away default ports and resolves exact dot segments, and keeps
percent-encoding in `pathname`). -/
structure URLm where
  protocol : String
  username : String := ""
  password : String := ""
  hostname : String
  port : String := ""
  pathname : String := "/"
  search : String := ""
  deriving DecidableEq, Repr

/-- `URL.origin` for the http/https URLs handled here (the parser already
removed default ports, so a nonempty `port` is printed). -/
def URLm.origin (u : URLm) : String :=
  u.protocol ++ "//" ++ u.hostname ++ (if u.port = "" then "" else ":" ++ u.port)

/-- `UrlPathRules`; the source field is named `requiredPrefix`. -/
structure UrlPathRules where
  requiredStart : Option String := none
  deriving DecidableEq, Repr

/-- `UrlQueryRules`. -/
structure UrlQueryRules where
  allowAny : Bool := false
  allowKeys : Option (List String) := none
  deriving DecidableEq, Repr

/-- `UrlPolicy`; the custom validator hook returns a `PolicyError` to
model a thrown exception. -/
structure UrlPolicy where
  allowedProtocols : List String
  allowedHosts : Option (List String) := none
  allowSubdomainsOf : Option (List String) := none
  requireDefaultPort : Bool := false
  pathRules : Option UrlPathRules := none
  queryRules : Option UrlQueryRules := none
  allowCredentials : Bool := false
  customValidator : Option (URLm → Except PolicyError Unit) := none

/-- `normalizeHostname` of `url-policy.ts` (lowercase, strip trailing
dots; unlike the `ip-policy.ts` namesake it does not trim whitespace). -/
def urlNormalizeHostname (l : Chars) : Chars :=
  dropTrailing (· = '.') (lowerL l)

/-- The regex `/%(?:2f|5c)/i`: an encoded path separator occurs. -/
def hasEncodedSeparator : Chars → Bool
  | '%' :: a :: b :: rest =>
    if (a = '2' ∧ (b = 'f' ∨ b = 'F')) ∨ (a = '5' ∧ (b = 'c' ∨ b = 'C')) then true
    else hasEncodedSeparator (a :: b :: rest)
  | _ :: rest => hasEncodedSeparator rest
  | [] => false

/-- The regex `/%[0-9a-f]{2}/i`: some percent-escape occurs. -/
def hasEncodedByte : Chars → Bool
  | '%' :: a :: b :: rest =>
    if (hexVal a).isSome ∧ (hexVal b).isSome then true
    else hasEncodedByte (a :: b :: rest)
  | _ :: rest => hasEncodedByte rest
  | [] => false

/-- The regex `/%(?![0-9a-f]{2})/i`: some `%` is not followed by two hex
digits. -/
def hasInvalidPercent : Chars → Bool
  | '%' :: a :: b :: rest =>
    if (hexVal a).isSome ∧ (hexVal b).isSome then hasInvalidPercent (a :: b :: rest)
    else true
  | '%' :: _ => true
  | _ :: rest => hasInvalidPercent rest
  | [] => false

/-- Token stream for `decodeURIComponent`: literal characters and decoded
percent-escape bytes. -/
inductive UriToken where
  | ch (c : Char)
  | byte (b : Nat)
  deriving DecidableEq, Repr

/-- First phase of `decodeURIComponent`: turn `%XX` escapes into bytes,
failing (`URIError`) on malformed escapes. -/
def pctTokens : Chars → Option (List UriToken)
  | [] => some []
  | '%' :: rest =>
    match rest with
    | a :: b :: t =>
      match hexVal a, hexVal b with
      | some x, some y => (pctTokens t).map (.byte (16 * x + y) :: ·)
      | _, _ => none
    | _ => none
  | c :: t => (pctTokens t).map (.ch c :: ·)

/-- Second phase of `decodeURIComponent`: strict UTF-8 assembly of the
decoded bytes (continuation bytes must themselves come from escapes);
astral code points are modelled as single scalar characters rather than
UTF-16 surrogate pairs. -/
def utf8Assemble : List UriToken → Option Chars
  | [] => some []
  | .ch c :: t => (utf8Assemble t).map (c :: ·)
  | .byte b :: t =>
    if b < 0x80 then (utf8Assemble t).map (Char.ofNat b :: ·)
    else if 0xC2 ≤ b ∧ b ≤ 0xDF then
      match t with
      | .byte b2 :: t2 =>
        if 0x80 ≤ b2 ∧ b2 ≤ 0xBF then
          (utf8Assemble t2).map (Char.ofNat ((b - 0xC0) * 64 + (b2 - 0x80)) :: ·)
        else none
      | _ => none
    else if 0xE0 ≤ b ∧ b ≤ 0xEF then
      match t with
      | .byte b2 :: .byte b3 :: t3 =>
        let lo2 := if b = 0xE0 then 0xA0 else 0x80
        let hi2 := if b = 0xED then 0x9F else 0xBF
        if lo2 ≤ b2 ∧ b2 ≤ hi2 ∧ 0x80 ≤ b3 ∧ b3 ≤ 0xBF then
          (utf8Assemble t3).map
            (Char.ofNat ((b - 0xE0) * 4096 + (b2 - 0x80) * 64 + (b3 - 0x80)) :: ·)
        else none
      | _ => none
    else if 0xF0 ≤ b ∧ b ≤ 0xF4 then
      match t with
      | .byte b2 :: .byte b3 :: .byte b4 :: t4 =>
        let lo2 := if b = 0xF0 then 0x90 else 0x80
        let hi2 := if b = 0xF4 then 0x8F else 0xBF
        if lo2 ≤ b2 ∧ b2 ≤ hi2 ∧ 0x80 ≤ b3 ∧ b3 ≤ 0xBF ∧ 0x80 ≤ b4 ∧ b4 ≤ 0xBF then
          (utf8Assemble t4).map
            (Char.ofNat ((b - 0xF0) * 262144 + (b2 - 0x80) * 4096 + (b3 - 0x80) * 64 + (b4 - 0x80)) :: ·)
        else none
      | _ => none
    else none

/-- JS `decodeURIComponent`, with `none` for a thrown `URIError`. -/
def decodeURIComponentL (l : Chars) : Option Chars :=
  (pctTokens l).bind utf8Assemble

/-- `collectDecodedPathVariants` with its `safeDecodeURIComponent` error:
the original path plus up to two rounds of decoding, stopping early when
no `%` remains or decoding reaches a fixed point (the source's
`for i in 0..2` loop, unrolled). -/
def collectDecodedPathVariants (p : Chars) : Except PolicyError (List Chars) :=
  if ¬p.contains '%' then .ok [p]
  else
    match decodeURIComponentL p with
    | none => .error .decodeInvalidPercentEncoding
    | some d1 =>
      if d1 = p then .ok [p]
      else if ¬d1.contains '%' then .ok [p, d1]
      else
        match decodeURIComponentL d1 with
        | none => .error .decodeInvalidPercentEncoding
        | some d2 =>
          if d2 = d1 then .ok [p, d1] else .ok [p, d1, d2]

/-- `hasDotSegments`: after replacing backslashes by slashes, some `/`
segment is `.` or `..`. -/
def hasDotSegments (pathname : Chars) : Bool :=
  let normalized := pathname.map (fun c => if c = '\\' then '/' else c)
  (splitChar '/' normalized).any (fun s => s = ['.'] ∨ s = ['.', '.'])

/-- `matchesRequiredPrefix` of `url-policy.ts` (renamed: the source name
ends in a reserved word). -/
def matchesRequiredStart (pathname required : Chars) : Bool :=
  let normalizedPath := pathname.map (fun c => if c = '\\' then '/' else c)
  let normalizedReq := required.map (fun c => if c = '\\' then '/' else c)
  if normalizedPath = normalizedReq then true
  else if normalizedReq.getLast? = some '/' ∧ normalizedPath = normalizedReq.dropLast then true
  else normalizedReq.isPrefixOf normalizedPath

/-- `assertHostAllowed`. -/
def assertHostAllowed (hostname : String) (policy : UrlPolicy) : Except PolicyError Unit :=
  if policy.allowedHosts = none ∧
      (policy.allowSubdomainsOf = none ∨ policy.allowSubdomainsOf = some []) then .ok ()
  else
    let normalized := urlNormalizeHostname hostname.data
    let hostHit := match policy.allowedHosts with
      | some hosts => hosts.any (fun h => urlNormalizeHostname h.data = normalized)
      | none => false
    let subHit := match policy.allowSubdomainsOf with
      | some domains => domains.any (fun d =>
          let normalizedDomain := urlNormalizeHostname d.data
          normalized = normalizedDomain || ('.' :: normalizedDomain).isSuffixOf normalized)
      | none => false
    if hostHit || subHit then .ok ()
    else .error (.hostnameNotAllowed hostname)

/-- `assertPathAllowed`. -/
def assertPathAllowed (u : URLm) (pathRules : Option UrlPathRules) : Except PolicyError Unit :=
  let pathname := u.pathname.data
  if pathname.contains '%' ∧ hasInvalidPercent pathname then
    .error .pathInvalidPercentEncoding
  else
    match collectDecodedPathVariants pathname with
    | .error e => .error e
    | .ok variants =>
      if variants.any hasEncodedSeparator then .error .pathEncodedSeparators
      else if variants.any hasDotSegments then .error .pathDotSegments
      else if 1 < variants.length ∧ hasEncodedByte ((variants.get? 1).getD []) then
        .error .pathDoubleEncoding
      else
        match pathRules with
        | some rules =>
          match UrlPathRules.requiredStart rules with
          | some required =>
            if required = "" then .ok ()
            else if variants.any (fun v => matchesRequiredStart v required.data) then .ok ()
            else .error (.pathMissingRequiredStart required)
          | none => .ok ()
        | none => .ok ()

/-- Keys of `URLSearchParams` over `url.search`: split on `&`, drop empty
pairs, take the part before the first `=` (lenient decoding of `+` and
single-byte escapes; never exercised by the policies below, which either
allow any query or forbid all of it). -/
def searchParamsKeys (search : String) : List String :=
  let body := match search.data with
    | '?' :: t => t
    | l => l
  ((splitChar '&' body).filter (· ≠ [])).map (fun seg =>
    let key := seg.takeWhile (· ≠ '=')
    let tokens := (pctTokens (key.map (fun c => if c = '+' then ' ' else c))).getD
      (key.map (.ch ·))
    String.mk (tokens.map (fun t => match t with | .ch c => c | .byte b => Char.ofNat (b % 128))))

/-- `assertQueryAllowed`. -/
def assertQueryAllowed (u : URLm) (policy : UrlPolicy) : Except PolicyError Unit :=
  match policy.queryRules with
  | none => .ok ()
  | some rules =>
    if rules.allowAny then .ok ()
    else
      match rules.allowKeys with
      | none => if u.search ≠ "" then .error .queryNotAllowed else .ok ()
      | some keys =>
        match (searchParamsKeys u.search).find? (fun k => ¬keys.contains k) with
        | some k => .error (.queryParamNotAllowed k)
        | none => .ok ()

/-- `assertPortAllowed`. -/
def assertPortAllowed (u : URLm) (policy : UrlPolicy) : Except PolicyError Unit :=
  if ¬policy.requireDefaultPort ∨ u.port = "" then .ok ()
  else
    let defaultPort := if u.protocol = "https:" then "443"
      else if u.protocol = "http:" then "80" else ""
    if defaultPort = "" ∨ u.port ≠ defaultPort then .error (.portNotAllowed u.protocol)
    else .ok ()

/-- `validateUrlAgainstPolicy`: protocol, credentials, host, port, path,
query, then the optional custom validator, in source order. -/
def validateUrlAgainstPolicy (u : URLm) (policy : UrlPolicy) : Except PolicyError Unit :=
  if ¬policy.allowedProtocols.contains u.protocol then
    .error (.protocolNotAllowed u.protocol)
  else if ¬policy.allowCredentials ∧ (u.username ≠ "" ∨ u.password ≠ "") then
    .error .credentialsNotAllowed
  else
    match assertHostAllowed u.hostname policy with
    | .error e => .error e
    | .ok () =>
      match assertPortAllowed u policy with
      | .error e => .error e
      | .ok () =>
        match assertPathAllowed u policy.pathRules with
        | .error e => .error e
        | .ok () =>
          match assertQueryAllowed u policy with
          | .error e => .error e
          | .ok () =>
            match policy.customValidator with
            | some f => f u
            | none => .ok ()

/-- `parseAndValidateUrl` on an already-parsed `URL` input (the branch
`new URL(input.toString())` merely clones the value). -/
def parseAndValidateUrlU (u : URLm) (policy : UrlPolicy) : Except PolicyError URLm :=
  match validateUrlAgainstPolicy u policy with
  | .error e => .error e
  | .ok () => .ok u

/-- `LOCALHOST_HOSTS` membership (`isLocalhostHostname`). -/
def isLocalhostHostname (hostname : String) : Bool :=
  ["localhost", "127.0.0.1", "[::1]", "::1"].any
    (fun h => h.data = urlNormalizeHostname hostname.data)

/-- `createExternalHttpsPolicy`. -/
def createExternalHttpsPolicy : UrlPolicy :=
  { allowedProtocols := ["https:"], allowCredentials := false,
    queryRules := some { allowAny := true } }

/-- `createHttpOrHttpsPolicy`. -/
def createHttpOrHttpsPolicy : UrlPolicy :=
  { allowedProtocols := ["https:", "http:"], allowCredentials := false,
    queryRules := some { allowAny := true } }

/-- `createHuggingFaceHubPolicy`. -/
def createHuggingFaceHubPolicy : UrlPolicy :=
  { allowedProtocols := ["https:"],
    allowedHosts := some ["huggingface.co", "www.huggingface.co", "hf.co"],
    allowCredentials := false, queryRules := some { allowAny := true } }

/-- `createLocalhostHttpPolicy`. -/
def createLocalhostHttpPolicy : UrlPolicy :=
  { allowedProtocols := ["https:", "http:"],
    allowedHosts := some ["localhost", "127.0.0.1", "[::1]"],
    allowCredentials := false, queryRules := some { allowAny := true } }

/-- `createHfDocsPolicy`, including its custom validator pinning hub
hostnames under `/docs/`. -/
def createHfDocsPolicy : UrlPolicy :=
  { allowedProtocols := ["https:"],
    allowedHosts := some ["huggingface.co", "www.huggingface.co", "gradio.app", "www.gradio.app"],
    allowCredentials := false, queryRules := some { allowAny := true },
    customValidator := some (fun url =>
      let host := urlNormalizeHostname url.hostname.data
      if ["huggingface.co", "www.huggingface.co"].any (fun h => h.data = host) ∧
          ¬matchesRequiredStart url.pathname.data "/docs/".data then
        .error (.customViolation "Hugging Face docs URLs must remain under /docs/")
      else .ok ()) }

/-- `createGradioMcpPolicy`; `nodeEnv` models `process.env.NODE_ENV`. -/
def createGradioMcpPolicy (nodeEnv : Option String) : UrlPolicy :=
  { allowedProtocols := ["https:", "http:"],
    pathRules := some { requiredStart := some "/gradio_api/mcp" },
    allowCredentials := false, queryRules := some { allowAny := true },
    customValidator := some (fun url =>
      if nodeEnv = some "production" ∧ url.protocol = "http:" ∧
          ¬isLocalhostHostname url.hostname then
        .error (.customViolation "HTTP is only allowed for localhost Gradio MCP endpoints")
      else .ok ()) }

/-- `createExactHostPolicy`. -/
def createExactHostPolicy (hostname : String) (allowedProtocol : String) : UrlPolicy :=
  { allowedProtocols := [allowedProtocol],
    allowedHosts := some [String.mk (lowerL hostname.data)],
    allowCredentials := false, queryRules := some { allowAny := true } }

/-- `createHostPrefixPolicy` (parameter renamed as in `UrlPathRules`). -/
def createHostPrefixPolicy (hostname : String) (requiredStart : String)
    (allowedProtocol : String := "https:") : UrlPolicy :=
  { allowedProtocols := [allowedProtocol],
    allowedHosts := some [String.mk (lowerL hostname.data)],
    pathRules := some { requiredStart := some requiredStart },
    allowCredentials := false, queryRules := some { allowAny := true } }

/-- `createGradioMcpHostPolicy`. -/
def createGradioMcpHostPolicy (hostname : String) (allowedProtocol : String) : UrlPolicy :=
  createHostPrefixPolicy hostname "/gradio_api/mcp" allowedProtocol

/-- `createGradioSchemaHostPolicy`. -/
def createGradioSchemaHostPolicy (hostname : String) : UrlPolicy :=
  createHostPrefixPolicy hostname "/gradio_api/mcp/schema"

/-! ## Safe request engine (`safe-fetch.ts`) -/

/-- A header set: association list with lowercased names, modelling the
JS `Headers` class (which normalises names and keeps one entry per name). -/
abbrev HeaderList := List (String × String)

/-- One step of the `Headers` constructor: duplicate names combine their
values with a comma, new names append. -/
def headerAppendCombine (acc : HeaderList) (k v : String) : HeaderList :=
  if acc.any (fun p => p.1 = k) then
    acc.map (fun p => if p.1 = k then (p.1, p.2 ++ ", " ++ v) else p)
  else acc ++ [(k, v)]

/-- `new Headers(init)`. -/
def headersOfInit (init : List (String × String)) : HeaderList :=
  init.foldl (fun acc kv => headerAppendCombine acc (String.mk (lowerL kv.1.data)) kv.2) []

/-- `Headers.delete` (name-insensitive). -/
def hDelete (key : String) (h : HeaderList) : HeaderList :=
  h.filter (fun p => p.1 ≠ String.mk (lowerL key.data))

/-- `Headers.get` (name-insensitive). -/
def hGet (key : String) (h : HeaderList) : Option String :=
  (h.find? (fun p => p.1 = String.mk (lowerL key.data))).map (fun p => p.2)

/-- `SENSITIVE_HEADERS` of `safe-fetch.ts`. -/
def sensitiveHeaderNames : List String :=
  ["authorization", "proxy-authorization", "cookie", "x-hf-authorization"]

/-- `dropSensitiveHeaders`; combined with the clear-and-refill of the
redirect loop this replaces the header set by its sensitive-free part. -/
def dropSensitiveHeaders (h : HeaderList) : HeaderList :=
  sensitiveHeaderNames.foldl (fun acc k => hDelete k acc) h

/-- `REDIRECT_STATUSES` membership (`isRedirectStatus`). -/
def isRedirectStatus (status : Nat) : Bool :=
  [301, 302, 303, 307, 308].contains status

/-- The body rule of `withMethodAndBody`: a body is sent only when
present and the method is neither GET nor HEAD. -/
def withMethodAndBody (method : String) (body : Option String) : Option String :=
  if body ≠ none ∧ method ≠ "GET" ∧ method ≠ "HEAD" then body else none

/-- One underlying HTTP exchange as issued by the engine. -/
structure SFRequest where
  url : URLm
  method : String
  headers : HeaderList
  body : Option String
  deriving DecidableEq, Repr

/-- The response fields the engine reads: the status and the `Location`
header. -/
structure SFResponse where
  status : Nat
  location : Option String := none
  deriving DecidableEq, Repr

/-- `SafeFetchResult` of `safe-fetch.ts`. -/
structure SafeFetchValue where
  response : SFResponse
  finalUrl : URLm
  redirectsFollowed : Nat
  deriving DecidableEq, Repr

/-- A run of `safeFetch`: the sequence of underlying exchanges that were
issued (instrumentation of `fetchWithTimeout` call sites) and the final
result or thrown error. -/
structure SafeFetchRun where
  exchanges : List SFRequest
  result : Except FetchError SafeFetchValue
  deriving DecidableEq, Repr

/-- The ambient world of a `safeFetch` call: the remote server (indexed
by how many exchanges happened before), `new URL(location, base)`
resolution, the DNS resolver used by `assertExternalAddress`, and the
allowlist environment variable. -/
structure SafeFetchEnv where
  server : Nat → SFRequest → SFResponse
  resolveLocation : String → URLm → Option URLm
  dns : String → List String := fun _ => []
  allowlistEnv : Option String := none

/-- `SafeFetchOptions`; `method`, `headers`, `body` model the used
`RequestInit` fields, with `method := ""` for an absent method. -/
structure SafeFetchOptions where
  urlPolicy : UrlPolicy
  timeoutMs : Int := 12500
  maxRedirects : Int := 5
  externalOnly : Bool := false
  method : String := ""
  headers : List (String × String) := []
  body : Option String := none
  stripSensitiveHeadersOnCrossHostRedirect : Bool := true

/-- `(requestInit.method || 'GET').toUpperCase()`. -/
def initialMethod (opts : SafeFetchOptions) : String :=
  String.mk (upperL (if opts.method = "" then "GET" else opts.method).data)

/-- The first underlying exchange a `safeFetch` call issues. -/
def firstRequest (u : URLm) (opts : SafeFetchOptions) : SFRequest :=
  ⟨u, initialMethod opts, headersOfInit opts.headers,
    withMethodAndBody (initialMethod opts) opts.body⟩

/-- The guard applied to a hostname when the profile is external-only. -/
def externalGuard (env : SafeFetchEnv) (opts : SafeFetchOptions) (hostname : String) :
    Except FetchError Unit :=
  if opts.externalOnly then
    assertExternalAddress env.allowlistEnv (env.dns hostname) (env.dns hostname) hostname {}
  else .ok ()

/-- The method-downgrade rule of the redirect loop: a 303 — or a 301/302
answering a POST — turns the follow-up request into a GET. -/
def downgradeFlag (status : Nat) (method : String) : Bool :=
  status == 303 || ((status == 301 || status == 302) && method == "POST")

/-- The header-set transition applied between one redirect hop and the
next: the cross-origin sensitive-header strip followed by the
method-downgrade deletion of `content-length`/`content-type`. -/
def nextHopHeaders (strip crossOrigin downgrade : Bool) (baseHeaders : HeaderList) :
    HeaderList :=
  let h1 := if strip ∧ crossOrigin then dropSensitiveHeaders baseHeaders else baseHeaders
  if downgrade then hDelete "content-type" (hDelete "content-length" h1) else h1

/-- The `while (true)` redirect loop of `safeFetch`.  The loop itself is
bounded by the redirect-limit check, which fires strictly before the
fuel can run out for the fuel chosen in `safeFetch`; the fuel-exhaustion
arm carries a designated marker unreachable from `safeFetch`. -/
def safeFetchLoop (env : SafeFetchEnv) (opts : SafeFetchOptions) :
    Nat → URLm → String → Option String → HeaderList → Nat → SafeFetchRun
  | 0, _, _, _, _, _ => ⟨[], .error .modelFuelExhausted⟩
  | fuel + 1, currentUrl, currentMethod, currentBody, baseHeaders, redirectsFollowed =>
    let req : SFRequest :=
      ⟨currentUrl, currentMethod, baseHeaders, withMethodAndBody currentMethod currentBody⟩
    let response := env.server redirectsFollowed req
    if ¬isRedirectStatus response.status then
      ⟨[req], .ok ⟨response, currentUrl, redirectsFollowed⟩⟩
    else if (redirectsFollowed : Int) ≥ opts.maxRedirects then
      ⟨[req], .error (.redirectLimitExceeded opts.maxRedirects)⟩
    else
      match response.location with
      | none => ⟨[req], .error (.redirectLocationMissing response.status)⟩
      | some location =>
        match env.resolveLocation location currentUrl with
        | none => ⟨[req], .error (.invalidRedirectUrl location)⟩
        | some nextCandidate =>
          match parseAndValidateUrlU nextCandidate opts.urlPolicy with
          | .error e => ⟨[req], .error (.policyViolation e)⟩
          | .ok nextUrl =>
            match externalGuard env opts nextUrl.hostname with
            | .error e => ⟨[req], .error e⟩
            | .ok () =>
              let crossOrigin := URLm.origin currentUrl != URLm.origin nextUrl
              let downgrade := downgradeFlag response.status currentMethod
              let nextMethod := if downgrade then "GET" else currentMethod
              let nextBody := if downgrade then none else currentBody
              let h2 := nextHopHeaders opts.stripSensitiveHeadersOnCrossHostRedirect
                crossOrigin downgrade baseHeaders
              let rest := safeFetchLoop env opts fuel nextUrl nextMethod nextBody h2
                (redirectsFollowed + 1)
              ⟨req :: rest.exchanges, rest.result⟩

/-- `safeFetch`: argument check, validation of the initial URL (and the
external guard when requested), then the redirect loop. -/
def safeFetch (env : SafeFetchEnv) (url : URLm) (opts : SafeFetchOptions) : SafeFetchRun :=
  if opts.maxRedirects < 0 then ⟨[], .error .maxRedirectsNegative⟩
  else
    match parseAndValidateUrlU url opts.urlPolicy with
    | .error e => ⟨[], .error (.policyViolation e)⟩
    | .ok currentUrl =>
      match externalGuard env opts currentUrl.hostname with
      | .error e => ⟨[], .error e⟩
      | .ok () =>
        safeFetchLoop env opts ((opts.maxRedirects + 1).toNat + 1) currentUrl
          (initialMethod opts) opts.body (headersOfInit opts.headers) 0

/-! ## Timeout handling (`fetchWithTimeout`) and fetch profiles -/

/-- The temporal behaviour of one underlying `fetch` call: when the
caller-supplied signal fires (`some 0` = already aborted at call time),
when the exchange would settle on its own, and how. -/
structure ExchangeWorld where
  hasSignal : Bool := false
  signalAbortTime : Option Nat := none
  completesAt : Option Nat := none
  transportFails : Bool := false
  response : SFResponse := { status := 200 }

/-- Outcome of `fetchWithTimeout`: a settled response, the native
`AbortError` escaping untranslated (the `timeoutMs <= 0` branch has no
catch), the translated abort and timeout errors, a transport failure, or
an exchange that never settles. -/
inductive FetchWTOutcome where
  | ok (r : SFResponse)
  | rawAbortError
  | abortedError
  | timeoutError (ms : Int)
  | transportError
  | neverSettles
  deriving DecidableEq, Repr

/-- A run of `fetchWithTimeout`: whether a wall-clock timer was armed
(`setTimeout` reached) and the outcome. -/
structure FetchWTRun where
  armedTimeout : Bool
  outcome : FetchWTOutcome
  deriving DecidableEq, Repr

/-- `a` happens no later than `b`, where `none` means never. -/
def optBefore (a b : Option Nat) : Bool :=
  match a, b with
  | none, _ => false
  | some _, none => true
  | some x, some y => x ≤ y

/-- `fetchWithTimeout`: with a nonpositive budget the request runs with no
timer and no abort translation; otherwise an already-aborted signal throws
before the timer is armed, and the armed run settles with whichever of
completion, external abort, or the deadline happens first (simultaneous
events are resolved in that priority order). -/
def fetchWithTimeout (timeoutMs : Int) (w : ExchangeWorld) : FetchWTRun :=
  let abortTime := if w.hasSignal then w.signalAbortTime else none
  if timeoutMs ≤ 0 then
    ⟨false,
      if optBefore w.completesAt abortTime then
        (if w.transportFails then .transportError else .ok w.response)
      else
        match abortTime with
        | some _ => .rawAbortError
        | none => .neverSettles⟩
  else
    if w.hasSignal ∧ w.signalAbortTime = some 0 then ⟨false, .abortedError⟩
    else
      let deadline := some timeoutMs.toNat
      ⟨true,
        if optBefore w.completesAt abortTime ∧ optBefore w.completesAt deadline then
          (if w.transportFails then .transportError else .ok w.response)
        else if optBefore abortTime deadline then .abortedError
        else .timeoutError timeoutMs⟩

/-- `SafeFetchProfile` of `fetch-profile.ts`. -/
structure SafeFetchProfile where
  urlPolicy : UrlPolicy
  timeoutMs : Int
  maxRedirects : Int
  externalOnly : Bool

/-- The effective timeout used by `fetchWithProfile`
(`options.timeoutMs ?? profile.timeoutMs`). -/
def fetchWithProfileTimeoutMs (profile : SafeFetchProfile) (overrideMs : Option Int) : Int :=
  overrideMs.getD profile.timeoutMs

/-! The named profile table `NETWORK_FETCH_PROFILES`. -/

namespace NetworkFetchProfiles

def externalHttps : SafeFetchProfile :=
  ⟨createExternalHttpsPolicy, 12500, 3, true⟩

def httpOrHttpsPermissive : SafeFetchProfile :=
  ⟨createHttpOrHttpsPolicy, 12500, 3, false⟩

def streamableProxy : SafeFetchProfile :=
  ⟨createHttpOrHttpsPolicy, 0, 3, false⟩

def hfHub : SafeFetchProfile :=
  ⟨createHuggingFaceHubPolicy, 12500, 3, true⟩

def hfDocs : SafeFetchProfile :=
  ⟨createHfDocsPolicy, 12500, 5, true⟩

def localhostHttp : SafeFetchProfile :=
  ⟨createLocalhostHttpPolicy, 12500, 2, false⟩

def gradioSchemaHost (hostname : String) : SafeFetchProfile :=
  ⟨createGradioSchemaHostPolicy hostname, 10000, 2, ¬isLocalhostHostname hostname⟩

def gradioMcpHost (hostname : String) (allowedProtocol : String)
    (nodeEnv : Option String) : SafeFetchProfile :=
  ⟨createGradioMcpHostPolicy hostname allowedProtocol, 0, 0,
    ¬isLocalhostHostname hostname ∧ nodeEnv ≠ some "test"⟩

end NetworkFetchProfiles

/-! ## Proxy tool registry (`proxy-tools-config.ts`) -/

/-- `ProxyToolResponseType`. -/
inductive ProxyToolResponseType where
  | JSON
  | SSE
  deriving DecidableEq, Repr

/-- `ProxyToolSource` (one parsed CSV row). -/
structure ProxyToolSource where
  proxyId : String
  url : String
  responseType : ProxyToolResponseType
  deriving DecidableEq, Repr

/-- The input schema of an upstream tool; the registry only inspects its
`type` field (named `schemaType` here). -/
structure ProxyToolInputSchema where
  schemaType : Option String := none
  deriving DecidableEq, Repr

/-- An upstream tool as returned by `client.listTools()`. -/
structure McpTool where
  name : String
  description : Option String := none
  inputSchema : Option ProxyToolInputSchema := none
  deriving DecidableEq, Repr

/-- `ProxyToolDefinition`. -/
structure ProxyToolDefinition where
  proxyId : String
  toolName : String
  upstreamToolName : String
  url : String
  responseType : ProxyToolResponseType
  description : Option String
  inputSchema : ProxyToolInputSchema
  deriving DecidableEq, Repr

/-- `buildProxyToolDefinition`; `qualifyNames` is the source's
`shouldPrefix` flag.  Tools without a well-formed object schema yield
`none` and are filtered out. -/
def buildProxyToolDefinition (source : ProxyToolSource) (tool : McpTool)
    (qualifyNames : Bool) : Option ProxyToolDefinition :=
  let outwardName := if qualifyNames then source.proxyId ++ "_" ++ tool.name else tool.name
  match tool.inputSchema with
  | none => none
  | some inputSchema =>
    if inputSchema.schemaType ≠ some "object" then none
    else some ⟨source.proxyId, outwardName, tool.name, source.url, source.responseType,
      tool.description, inputSchema⟩

/-- What a discovery attempt against one source produces: a transport or
timeout failure (caught and degraded to no tools), or a tool list. -/
inductive UpstreamOutcome where
  | failure
  | toolList (tools : List McpTool)
  deriving DecidableEq, Repr

/-- `fetchProxyToolSchemas` for one source, given the discovery outcome:
failures and empty catalogs contribute nothing, otherwise each tool is
mapped through `buildProxyToolDefinition` and invalid ones dropped. -/
def fetchProxyToolSchemas (source : ProxyToolSource) (outcome : UpstreamOutcome)
    (qualifyNames : Bool) : List ProxyToolDefinition :=
  match outcome with
  | .failure => []
  | .toolList tools =>
    if tools = [] then []
    else tools.filterMap (fun t => buildProxyToolDefinition source t qualifyNames)

/-- `loadProxyToolSchemas`: names are qualified exactly when more than one
source is configured; per-source results are concatenated in source
order (`Promise.all` preserves order). -/
def loadProxyToolSchemas (sources : List ProxyToolSource)
    (answers : ProxyToolSource → UpstreamOutcome) : List ProxyToolDefinition :=
  if sources = [] then []
  else
    let qualifyNames := 1 < sources.length
    sources.flatMap (fun s => fetchProxyToolSchemas s (answers s) qualifyNames)

/-! ## Upstream call bridge: replica URL rewriting (`gradio -client`) -/

/-- `extractReplicaId`: last `-`-separated part of the
`X-Proxied-Replica` header value. -/
def extractReplicaId (headerValue : Option String) : Option String :=
  match headerValue with
  | none => none
  | some hv =>
    if hv = "" then none
    else
      let parts := splitChar '-' hv.data
      if parts.length < 2 then none
      else
        let replicaId := (parts.getLast?).getD []
        if replicaId = [] then none
        else if jsTrim replicaId = [] then none
        else some (String.mk replicaId)

/-- Characters allowed in the host group of the rewrite regex
(`[^\s"']`). -/
def urlHostChar (c : Char) : Bool :=
  ¬(isJsWhitespace c || c = '"' || c = '\'')

/-- Backtracking host matcher for the regex
`https:\/\/([^\s"']+)\/gradio_api`: starting after `https://`, find the
longest allowed-character host group that is immediately followed by the
literal `/gradio_api` (greedy matching prefers the deepest split);
returns the host and the remainder after the literal. -/
def hostScan : Chars → Chars → Option (Chars × Chars)
  | _, [] => none
  | acc, c :: t =>
    match (if urlHostChar c then hostScan (c :: acc) t else none) with
    | some r => some r
    | none =>
      if "/gradio_api".data.isPrefixOf (c :: t) ∧ acc ≠ [] then
        some (acc.reverse, (c :: t).drop 11)
      else none

/-- Scanner for the global regex replace of `rewriteReplicaUrlsInResult`:
at each position try to match `https://([^\s"']+)/gradio_api(\S*)?`; on a
match emit the replacement (origin, then the replicas path segment
carrying the replica id, then `gradio_api` and the rest of the match) and
resume after the match, otherwise advance one character.  Fuel is the input length, which always
suffices since every step consumes at least one character. -/
def rewriteGo (replicaId : Chars) : Nat → Chars → Chars
  | 0, l => l
  | _ + 1, [] => []
  | fuel + 1, c :: t =>
    if "https://".data.isPrefixOf (c :: t) then
      match hostScan [] ((c :: t).drop 8) with
      | some (host, after) =>
        let restPart := after.takeWhile (fun ch => ¬isJsWhitespace ch)
        let tail := after.drop restPart.length
        "https://".data ++ host ++ "/--replicas/".data ++ replicaId ++
          "/gradio_api".data ++ restPart ++ rewriteGo replicaId fuel tail
      | none => c :: rewriteGo replicaId fuel t
    else c :: rewriteGo replicaId fuel t

/-- `rewriteText` (the `text.replace(urlPattern, ...)` closure). -/
def rewriteText (replicaId : String) (text : String) : String :=
  String.mk (rewriteGo replicaId.data text.data.length text.data)

/-- One entry of `CallToolResult.content`: a bare string, an object with
a string `text` field (`meta` stands for its other fields), or any other
content object. -/
inductive ContentItem where
  | strContent (s : String)
  | textContent (text : String) (meta : String)
  | otherContent (meta : String)
  deriving DecidableEq, Repr

/-- `CallToolResult` (`meta` stands for the fields other than
`content`, which the rewrite spreads through unchanged). -/
structure CallToolResult where
  content : List ContentItem
  isError : Bool := false
  meta : String := ""
  deriving DecidableEq, Repr

/-- The per-item mapping of `rewriteReplicaUrlsInResult`: a bare string
becomes a fresh `{ type: 'text', text }` object (hence `textContent` with
a fresh `meta`), a text object gets its text rewritten in place, anything
else passes through. -/
def rewriteContentItem (replicaId : String) : ContentItem → ContentItem
  | .strContent s => .textContent (rewriteText replicaId s) "type=text"
  | .textContent text meta => .textContent (rewriteText replicaId text) meta
  | .otherContent meta => .otherContent meta

/-- Whether an item sets the `changed` flag of
`rewriteReplicaUrlsInResult`. -/
def contentItemChanged (replicaId : String) : ContentItem → Bool
  | .strContent s => rewriteText replicaId s ≠ s
  | .textContent text _ => rewriteText replicaId text ≠ text
  | .otherContent _ => false

/-- `rewriteReplicaUrlsInResult`; `noReplicaRewriteEnv` models the
`NO_REPLICA_REWRITE` environment switch (false in normal operation). -/
def rewriteReplicaUrlsInResult (noReplicaRewriteEnv : Bool) (result : CallToolResult)
    (proxiedReplicaHeader : Option String) : CallToolResult :=
  if noReplicaRewriteEnv then result
  else
    match extractReplicaId proxiedReplicaHeader with
    | none => result
    | some replicaId =>
      let newContent := result.content.map (rewriteContentItem replicaId)
      let changed := result.content.any (contentItemChanged replicaId)
      if ¬changed then result else { result with content := newContent }

/-! ## Claim-side scenario definitions -/

/-- The canonical dotted-quad rendering of four octets. -/
def ipv4Render (a b c d : Nat) : Chars :=
  renderDec a ++ '.' :: renderDec b ++ '.' :: renderDec c ++ '.' :: renderDec d

/-- The canonical IPv4-mapped IPv6 rendering of four octets. -/
def v4MappedRender (a b c d : Nat) : Chars :=
  "::ffff:".data ++ ipv4Render a b c d

/-- The numeric value of four octets. -/
def octetsValue (a b c d : Nat) : Nat :=
  ((a * 256 + b) * 256 + c) * 256 + d

/-- A policy pinning requests to `ok.example` over https. -/
def scnHostPolicy : UrlPolicy := createExactHostPolicy "ok.example" "https:"

def scnUrlA : URLm := { protocol := "https:", hostname := "ok.example", pathname := "/a" }

def scnUrlB : URLm := { protocol := "https:", hostname := "ok.example", pathname := "/b" }

def scnUrlEvil : URLm :=
  { protocol := "https:", hostname := "evil.example", pathname := "/x" }

/-- `new URL(location, base)` for the two absolute locations the scenario
servers emit. -/
def scnResolve : String → URLm → Option URLm := fun loc _ =>
  if loc = "https://ok.example/b" then some scnUrlB
  else if loc = "https://evil.example/x" then some scnUrlEvil
  else none

/-- A server that always redirects off-policy to `evil.example`. -/
def scnEnvEvil : SafeFetchEnv :=
  { server := fun _ _ => { status := 302, location := some "https://evil.example/x" },
    resolveLocation := scnResolve }

/-- A server that always redirects within `ok.example`. -/
def scnEnvLoop : SafeFetchEnv :=
  { server := fun _ _ => { status := 302, location := some "https://ok.example/b" },
    resolveLocation := scnResolve }

def scnOpts : SafeFetchOptions := { urlPolicy := scnHostPolicy }

def scn6Opts : SafeFetchOptions := { urlPolicy := scnHostPolicy, maxRedirects := 1 }

/-- A server answering the first exchange with a same-origin 303 and the
second with a plain 200. -/
def scn5Env : SafeFetchEnv :=
  { server := fun n _ =>
      if n = 0 then { status := 303, location := some "https://ok.example/b" }
      else { status := 200 },
    resolveLocation := scnResolve }

def scn5Opts : SafeFetchOptions :=
  { urlPolicy := scnHostPolicy, method := "POST",
    headers := [("content-type", "application/json"), ("authorization", "Bearer x")],
    body := some "payload" }

/-- A tool result whose text mentions a Gradio API URL on a foreign
origin. -/
def scn8Result : CallToolResult :=
  { content := [.textContent "see https://evil.example/gradio_api/info" "m"] }

def scn9SrcA : ProxyToolSource := ⟨"a", "https://a.example/mcp", .JSON⟩

def scn9SrcB : ProxyToolSource := ⟨"b", "https://b.example/mcp", .JSON⟩

def scn9Tool : McpTool := { name := "t", inputSchema := some { schemaType := some "object" } }

/-- Source `a` reports the same tool name twice; source `b` reports
nothing. -/
def scn9Answers : ProxyToolSource → UpstreamOutcome := fun s =>
  if s.proxyId = "a" then .toolList [scn9Tool, scn9Tool] else .toolList []

/-- Both sources report one well-formed tool named `t`. -/
def scn9AnswersOk : ProxyToolSource → UpstreamOutcome := fun _ => .toolList [scn9Tool]


/-! ## Round-trip lemmas: digit rendering versus JS parsing -/

/-- Parsed values of rendered decimal digits. -/
theorem digitVal10_digitChar : ∀ d, d < 10 → digitVal 10 (Nat.digitChar d) = some d := by
  decide

/-- Parsed values of rendered hexadecimal digits. -/
theorem digitVal16_digitChar : ∀ d, d < 16 → digitVal 16 (Nat.digitChar d) = some d := by
  decide

/-- Rendered digits are plain characters: not whitespace, not signs, and
none of the separator characters of the address grammar. -/
theorem digitChar_plain : ∀ d, d < 16 →
    isJsWhitespace (Nat.digitChar d) = false ∧ Nat.digitChar d ≠ '-' ∧
    Nat.digitChar d ≠ '+' ∧ Nat.digitChar d ≠ '.' ∧ Nat.digitChar d ≠ ':' ∧
    Nat.digitChar d ≠ '%' ∧ Nat.digitChar d ≠ '[' ∧ Nat.digitChar d ≠ 'x' ∧
    Nat.digitChar d ≠ 'X' := by
  decide

/-- Characterisation of `renderDecCore` under sufficient fuel: its
characters are decimal digits, it is nonempty, and folding the digit
values recovers the rendered number. -/
theorem renderDecCore_spec : ∀ f n, n < f →
    (∀ c ∈ renderDecCore f n, ∃ d, d < 10 ∧ c = Nat.digitChar d) ∧
    renderDecCore f n ≠ [] ∧
    ∀ acc : Nat,
      (renderDecCore f n).foldl (fun a c => a * 10 + ((digitVal 10 c).getD 0)) acc =
        acc * 10 ^ (renderDecCore f n).length + n := by
  intro f
  induction f with
  | zero => intro n hn; omega
  | succ f ih =>
    intro n hn
    by_cases h10 : n < 10
    · simp only [renderDecCore, if_pos h10]
      refine ⟨?_, by simp, ?_⟩
      · intro c hc
        exact ⟨n, h10, (List.mem_singleton.mp hc)⟩
      · intro acc
        simp [digitVal10_digitChar n h10]
    · have hdiv : n / 10 < f := by
        have h1 : n / 10 < n := Nat.div_lt_self (by omega) (by omega)
        omega
      obtain ⟨hdig, hne, hfold⟩ := ih (n / 10) hdiv
      simp only [renderDecCore, if_neg h10]
      refine ⟨?_, by simp, ?_⟩
      · intro c hc
        rcases List.mem_append.mp hc with h | h
        · exact hdig c h
        · exact ⟨n % 10, by omega, List.mem_singleton.mp h⟩
      · intro acc
        rw [List.foldl_append, hfold, List.length_append]
        simp only [List.foldl, List.length_singleton,
          digitVal10_digitChar (n % 10) (by omega), Option.getD_some]
        rw [pow_succ]
        have hmod : 10 * (n / 10) + n % 10 = n := Nat.div_add_mod n 10
        ring_nf
        omega

/-- Characterisation of `renderHexCore` under sufficient fuel. -/
theorem renderHexCore_spec : ∀ f n, n < f →
    (∀ c ∈ renderHexCore f n, ∃ d, d < 16 ∧ c = Nat.digitChar d) ∧
    renderHexCore f n ≠ [] ∧
    ∀ acc : Nat,
      (renderHexCore f n).foldl (fun a c => a * 16 + ((digitVal 16 c).getD 0)) acc =
        acc * 16 ^ (renderHexCore f n).length + n := by
  intro f
  induction f with
  | zero => intro n hn; omega
  | succ f ih =>
    intro n hn
    by_cases h16 : n < 16
    · simp only [renderHexCore, if_pos h16]
      refine ⟨?_, by simp, ?_⟩
      · intro c hc
        exact ⟨n, h16, (List.mem_singleton.mp hc)⟩
      · intro acc
        simp [digitVal16_digitChar n h16]
    · have hdiv : n / 16 < f := by
        have h1 : n / 16 < n := Nat.div_lt_self (by omega) (by omega)
        omega
      obtain ⟨hdig, hne, hfold⟩ := ih (n / 16) hdiv
      simp only [renderHexCore, if_neg h16]
      refine ⟨?_, by simp, ?_⟩
      · intro c hc
        rcases List.mem_append.mp hc with h | h
        · exact hdig c h
        · exact ⟨n % 16, by omega, List.mem_singleton.mp h⟩
      · intro acc
        rw [List.foldl_append, hfold, List.length_append]
        simp only [List.foldl, List.length_singleton,
          digitVal16_digitChar (n % 16) (by omega), Option.getD_some]
        rw [pow_succ]
        have hmod : 16 * (n / 16) + n % 16 = n := Nat.div_add_mod n 16
        ring_nf
        omega

/-- Every character of `renderDec n` is a decimal digit. -/
theorem renderDec_digits (n : Nat) :
    ∀ c ∈ renderDec n, ∃ d, d < 10 ∧ c = Nat.digitChar d :=
  (renderDecCore_spec (n + 1) n (by omega)).1

theorem renderDec_ne_nil (n : Nat) : renderDec n ≠ [] :=
  (renderDecCore_spec (n + 1) n (by omega)).2.1

theorem renderDec_foldl (n : Nat) :
    (renderDec n).foldl (fun a c => a * 10 + ((digitVal 10 c).getD 0)) 0 = n := by
  have h := (renderDecCore_spec (n + 1) n (by omega)).2.2 0
  simpa using h

/-- Every character of `renderHex n` is a hexadecimal digit. -/
theorem renderHex_digits (n : Nat) :
    ∀ c ∈ renderHex n, ∃ d, d < 16 ∧ c = Nat.digitChar d :=
  (renderHexCore_spec (n + 1) n (by omega)).1

theorem renderHex_ne_nil (n : Nat) : renderHex n ≠ [] :=
  (renderHexCore_spec (n + 1) n (by omega)).2.1

theorem renderHex_foldl (n : Nat) :
    (renderHex n).foldl (fun a c => a * 16 + ((digitVal 16 c).getD 0)) 0 = n := by
  have h := (renderHexCore_spec (n + 1) n (by omega)).2.2 0
  simpa using h

/-- `jsSign` consumes nothing when the head is not a sign. -/
theorem jsSign_default (c : Char) (t : Chars) (h1 : c ≠ '-') (h2 : c ≠ '+') :
    jsSign (c :: t) = (1, c :: t) := by
  unfold jsSign
  split
  · next heq => exact absurd (List.head_eq_of_cons_eq heq) h1
  · next heq => exact absurd (List.head_eq_of_cons_eq heq) h2
  · rfl

/-- `jsStrip0x` strips nothing when no character is `x`/`X`. -/
theorem jsStrip0x_default (l : Chars) (h : ∀ c ∈ l, c ≠ 'x' ∧ c ≠ 'X') :
    jsStrip0x l = l := by
  unfold jsStrip0x
  split
  · next => exact absurd rfl (h 'x' (by simp)).1
  · next => exact absurd rfl (h 'X' (by simp)).2
  · rfl

/-- `jsParseInt` on a nonempty all-digit string: nothing is skipped or
stripped, and the digit run is the whole string, so the result is the
folded digit value. -/
theorem jsParseInt_digits (radix : Nat) (l : Chars) (hne : l ≠ [])
    (hd : ∀ c ∈ l, (digitVal radix c).isSome ∧ isJsWhitespace c = false ∧
      c ≠ '-' ∧ c ≠ '+' ∧ c ≠ 'x' ∧ c ≠ 'X') :
    jsParseInt radix l =
      some ((l.foldl (fun a c => a * radix + ((digitVal radix c).getD 0)) 0 : Nat) : Int) := by
  obtain ⟨c, t, rfl⟩ : ∃ c t, l = c :: t := by
    cases l with
    | nil => exact absurd rfl hne
    | cons c t => exact ⟨c, t, rfl⟩
  obtain ⟨hdig, hws, hminus, hplus, hx, hX⟩ := hd c (List.mem_cons_self _ _)
  have hdrop : (c :: t).dropWhile isJsWhitespace = c :: t := by
    rw [List.dropWhile_cons, hws]
    simp
  have htake : (c :: t).takeWhile (fun ch => (digitVal radix ch).isSome) = c :: t :=
    List.takeWhile_eq_self_iff.mpr (fun ch hch => (hd ch hch).1)
  have hstrip : (if radix = 16 then jsStrip0x (c :: t) else c :: t) = c :: t := by
    by_cases hr : radix = 16
    · rw [if_pos hr, jsStrip0x_default _ (fun ch hch => ⟨(hd ch hch).2.2.2.2.1, (hd ch hch).2.2.2.2.2⟩)]
    · rw [if_neg hr]
  unfold jsParseInt
  rw [hdrop, jsSign_default c t hminus hplus]
  simp only [hstrip, htake]
  rw [if_neg (by simp)]
  simp

/-! ## Splitting lemmas -/

/-- `splitChar` leaves a separator-free list whole. -/
theorem splitChar_of_not_mem (sep : Char) (l : Chars) (h : sep ∉ l) :
    splitChar sep l = [l] := by
  induction l with
  | nil => rfl
  | cons c t ih =>
    have hc : c ≠ sep := fun hcs => h (hcs ▸ List.mem_cons_self c t)
    have ht : sep ∉ t := fun hmem => h (List.mem_cons_of_mem c hmem)
    simp only [splitChar, if_neg hc, ih ht]

/-- `splitChar` at the first separator after a separator-free block. -/
theorem splitChar_append_sep (sep : Char) (x y : Chars) (h : sep ∉ x) :
    splitChar sep (x ++ sep :: y) = x :: splitChar sep y := by
  induction x with
  | nil =>
    simp [splitChar]
  | cons c t ih =>
    have hc : c ≠ sep := fun hcs => h (hcs ▸ List.mem_cons_self c t)
    have ht : sep ∉ t := fun hmem => h (List.mem_cons_of_mem c hmem)
    simp only [List.cons_append, splitChar, if_neg hc, List.append_eq]
    rw [ih ht]

/-- The result of `splitSeqCore` does not depend on the fuel once the
fuel exceeds the length of the list being split. -/
theorem splitSeqCore_fuel_irrel (sep : Chars) :
    ∀ f1 f2 l, l.length < f1 → l.length < f2 →
      splitSeqCore sep f1 l = splitSeqCore sep f2 l := by
  intro f1
  induction f1 with
  | zero => intro f2 l h1 _; omega
  | succ f ih =>
    intro f2 l h1 h2
    cases f2 with
    | zero => omega
    | succ f' =>
      cases l with
      | nil => rfl
      | cons c t =>
        simp only [splitSeqCore]
        by_cases hpre : sep ≠ [] ∧ sep.isPrefixOf (c :: t)
        · simp only [if_pos hpre]
          have hseplen : 1 ≤ sep.length := by
            cases hs : sep with
            | nil => exact absurd hs hpre.1
            | cons a t' => simp
          have hlen : ((c :: t).drop sep.length).length < f := by
            simp only [List.length_drop, List.length_cons]
            simp only [List.length_cons] at h1
            omega
          have hlen' : ((c :: t).drop sep.length).length < f' := by
            simp only [List.length_drop, List.length_cons]
            simp only [List.length_cons] at h2
            omega
          rw [ih _ _ hlen hlen']
        · simp only [if_neg hpre]
          have ht : t.length < f := by simp only [List.length_cons] at h1; omega
          have ht' : t.length < f' := by simp only [List.length_cons] at h2; omega
          rw [ih _ _ ht ht']

/-- Step equation of `splitSeq`, hiding the fuel of its worker. -/
theorem splitSeq_cons (sep : Chars) (c : Char) (t : Chars) :
    splitSeq sep (c :: t) =
      if sep ≠ [] ∧ sep.isPrefixOf (c :: t) then
        [] :: splitSeq sep ((c :: t).drop sep.length)
      else
        match splitSeq sep t with
        | h :: r => (c :: h) :: r
        | [] => [[c]] := by
  by_cases hpre : sep ≠ [] ∧ sep.isPrefixOf (c :: t)
  · rw [if_pos hpre]
    show splitSeqCore sep ((c :: t).length + 1) (c :: t) = _
    rw [show (c :: t).length + 1 = t.length + 1 + 1 from by simp]
    rw [splitSeqCore, if_pos hpre]
    show _ = [] :: splitSeqCore sep (((c :: t).drop sep.length).length + 1) _
    congr 1
    have hsep1 : 0 < sep.length := List.length_pos.mpr hpre.1
    apply splitSeqCore_fuel_irrel
    · simp only [List.length_drop, List.length_cons]
      omega
    · omega
  · rw [if_neg hpre]
    show splitSeqCore sep ((c :: t).length + 1) (c :: t) = _
    rw [show (c :: t).length + 1 = t.length + 1 + 1 from by simp]
    rw [splitSeqCore, if_neg hpre]
    rfl

/-- `splitSeq` never returns the empty list of pieces. -/
theorem splitSeq_ne_nil (sep : Chars) : ∀ l, splitSeq sep l ≠ [] := by
  intro l
  rcases l with _ | ⟨c, t⟩
  · simp [splitSeq, splitSeqCore]
  · rw [splitSeq_cons]
    split
    · simp
    · split <;> simp

/-- Splitting on `::` at an immediate separator. -/
theorem splitSeq_colon2_here (rest : Chars) :
    splitSeq [':', ':'] (':' :: ':' :: rest) = [] :: splitSeq [':', ':'] rest := by
  rw [splitSeq_cons, if_pos ⟨by simp, by simp [List.isPrefixOf_iff_prefix]⟩]
  rfl


/-- Prepending a colon-free block to the input of a `::` split extends
the first piece. -/
theorem splitSeq_colon2_block (x r : Chars) (hx : ':' ∉ x) :
    splitSeq [':', ':'] (x ++ r) =
      match splitSeq [':', ':'] r with
      | h :: tl => (x ++ h) :: tl
      | [] => [x] := by
  induction x with
  | nil =>
    cases hs : splitSeq [':', ':'] r with
    | nil => exact absurd hs (splitSeq_ne_nil _ r)
    | cons h tl => simp [hs]
  | cons c t ih =>
    have hc : c ≠ ':' := fun hcs => hx (hcs ▸ List.mem_cons_self c t)
    have ht : ':' ∉ t := fun hmem => hx (List.mem_cons_of_mem c hmem)
    rw [List.cons_append, splitSeq_cons,
      if_neg (by
        rintro ⟨-, hp⟩
        rcases List.isPrefixOf_iff_prefix.mp hp with ⟨s, hs⟩
        exact hc (List.head_eq_of_cons_eq hs).symm)]
    rw [ih ht]
    cases hs : splitSeq [':', ':'] r with
    | nil => exact absurd hs (splitSeq_ne_nil _ r)
    | cons h tl => simp

/-- A single colon followed by a nonempty colon-free block does not start
a `::` separator, so it lands in the current piece. -/
theorem splitSeq_colon2_single (d : Char) (x r : Chars) (hd : d ≠ ':') :
    splitSeq [':', ':'] (':' :: d :: x ++ r) =
      match splitSeq [':', ':'] (d :: x ++ r) with
      | h :: tl => (':' :: h) :: tl
      | [] => [[':']] := by
  rw [show (':' :: d :: x ++ r : Chars) = ':' :: (d :: x ++ r) from rfl, splitSeq_cons,
    if_neg (by
      rintro ⟨-, hp⟩
      rcases List.isPrefixOf_iff_prefix.mp hp with ⟨s, hs⟩
      exact hd (List.head_eq_of_cons_eq (List.tail_eq_of_cons_eq hs)).symm)]

/-- `lastIndexOfChar` misses characters that do not occur. -/
theorem lastIndexOfChar_of_not_mem (c : Char) (l : Chars) (h : c ∉ l) :
    lastIndexOfChar c l = none := by
  induction l with
  | nil => rfl
  | cons a t ih =>
    have ha : a ≠ c := fun hac => h (hac ▸ List.mem_cons_self a t)
    have ht : c ∉ t := fun hmem => h (List.mem_cons_of_mem a hmem)
    simp [lastIndexOfChar, ih ht, ha]

/-- `lastIndexOfChar` over an appended block free of the character. -/
theorem lastIndexOfChar_append_right_free (c : Char) (x y : Chars) (h : c ∉ y) :
    lastIndexOfChar c (x ++ y) = lastIndexOfChar c x := by
  induction x with
  | nil => simp [lastIndexOfChar_of_not_mem c y h, lastIndexOfChar]
  | cons a t ih =>
    simp only [List.cons_append, lastIndexOfChar, List.append_eq, ih]

/-- `takeWhile` keeps a list all of whose elements satisfy the predicate. -/
theorem takeWhile_all (p : Char → Bool) (l : Chars) (h : ∀ c ∈ l, p c) :
    l.takeWhile p = l :=
  List.takeWhile_eq_self_iff.mpr h

/-! ## Bitwise lemmas for the fuel-based AND -/

theorem natAndCore_zero_right : ∀ f a, natAndCore f a 0 = 0 := by
  intro f
  induction f with
  | zero => intro a; rfl
  | succ f ih =>
    intro a
    simp [natAndCore, ih]

/-- `natAndCore` with an all-ones mask of `k` bits computes `· % 2 ^ k`. -/
theorem natAndCore_two_pow_sub_one :
    ∀ f a k, k ≤ f → a < 2 ^ f → natAndCore f a (2 ^ k - 1) = a % 2 ^ k := by
  intro f
  induction f with
  | zero =>
    intro a k hk ha
    interval_cases k
    simp [natAndCore]
    omega
  | succ f ih =>
    intro a k hk ha
    cases k with
    | zero =>
      simp only [pow_zero]
      rw [show (1 : Nat) - 1 = 0 from rfl, natAndCore_zero_right]
      omega
    | succ k' =>
      have h2k : (2 : Nat) ^ (k' + 1) = 2 * 2 ^ k' := by ring
      have hpos : 1 ≤ (2 : Nat) ^ k' := Nat.one_le_two_pow
      have hmask2 : (2 * 2 ^ k' - 1) % 2 = 1 := by omega
      have hmaskd : (2 ^ (k' + 1) - 1) / 2 = 2 ^ k' - 1 := by omega
      have hadiv : a / 2 < 2 ^ f := by
        have h2f : (2 : Nat) ^ (f + 1) = 2 * 2 ^ f := by ring
        omega
      have hsplit : a % (2 * 2 ^ k') = a % 2 + 2 * (a / 2 % 2 ^ k') := Nat.mod_mul
      simp only [natAndCore, hmaskd]
      rw [ih (a / 2) k' (by omega) hadiv]
      rw [h2k, hsplit]
      by_cases ha2 : a % 2 = 1
      · rw [if_pos ⟨ha2, hmask2⟩]
        omega
      · rw [if_neg (by tauto)]
        omega

/-- `natAnd` with an all-ones mask computes the modulus. -/
theorem natAnd_two_pow_sub_one (a k : Nat) (hk : k ≤ 128) (ha : a < 2 ^ 128) :
    natAnd a (2 ^ k - 1) = a % 2 ^ k :=
  natAndCore_two_pow_sub_one 128 a k hk ha

/-! ## Parsing the rendered address forms -/

/-- Characters of a rendered decimal number are digits and nothing else. -/
theorem renderDec_plain (n : Nat) : ∀ c ∈ renderDec n,
    (digitVal 10 c).isSome = true ∧ isJsWhitespace c = false ∧ c ≠ '-' ∧ c ≠ '+' ∧
    c ≠ 'x' ∧ c ≠ 'X' ∧ c ≠ '.' ∧ c ≠ ':' ∧ c ≠ '%' ∧ c ≠ '[' := by
  intro c hc
  obtain ⟨d, hd, rfl⟩ := renderDec_digits n c hc
  obtain ⟨hws, hm, hp, hdot, hcol, hpct, hbr, hx, hX⟩ := digitChar_plain d (by omega)
  exact ⟨by simp [digitVal10_digitChar d hd], hws, hm, hp, hx, hX, hdot, hcol, hpct, hbr⟩

/-- Characters of a rendered hexadecimal number are hex digits and
nothing else. -/
theorem renderHex_plain (n : Nat) : ∀ c ∈ renderHex n,
    (digitVal 16 c).isSome = true ∧ isJsWhitespace c = false ∧ c ≠ '-' ∧ c ≠ '+' ∧
    c ≠ 'x' ∧ c ≠ 'X' ∧ c ≠ '.' ∧ c ≠ ':' ∧ c ≠ '%' ∧ c ≠ '[' := by
  intro c hc
  obtain ⟨d, hd, rfl⟩ := renderHex_digits n c hc
  obtain ⟨hws, hm, hp, hdot, hcol, hpct, hbr, hx, hX⟩ := digitChar_plain d hd
  exact ⟨by simp [digitVal16_digitChar d hd], hws, hm, hp, hx, hX, hdot, hcol, hpct, hbr⟩

/-- `Number.parseInt(·, 10)` inverts decimal rendering. -/
theorem jsParseInt10_renderDec (n : Nat) :
    jsParseInt 10 (renderDec n) = some (n : Int) := by
  rw [jsParseInt_digits 10 _ (renderDec_ne_nil n) (fun c hc =>
    ⟨(renderDec_plain n c hc).1, (renderDec_plain n c hc).2.1,
      (renderDec_plain n c hc).2.2.1, (renderDec_plain n c hc).2.2.2.1,
      (renderDec_plain n c hc).2.2.2.2.1, (renderDec_plain n c hc).2.2.2.2.2.1⟩)]
  rw [renderDec_foldl]

/-- `Number.parseInt(·, 16)` inverts hexadecimal rendering. -/
theorem jsParseInt16_renderHex (n : Nat) :
    jsParseInt 16 (renderHex n) = some (n : Int) := by
  rw [jsParseInt_digits 16 _ (renderHex_ne_nil n) (fun c hc =>
    ⟨(renderHex_plain n c hc).1, (renderHex_plain n c hc).2.1,
      (renderHex_plain n c hc).2.2.1, (renderHex_plain n c hc).2.2.2.1,
      (renderHex_plain n c hc).2.2.2.2.1, (renderHex_plain n c hc).2.2.2.2.2.1⟩)]
  rw [renderHex_foldl]

theorem splitChar_ipv4Render (a b c d : Nat) :
    splitChar '.' (ipv4Render a b c d) =
      [renderDec a, renderDec b, renderDec c, renderDec d] := by
  have hnd : ∀ n : Nat, '.' ∉ renderDec n := fun n hmem =>
    absurd rfl (renderDec_plain n '.' hmem).2.2.2.2.2.2.1
  unfold ipv4Render
  simp only [List.cons_append, List.append_assoc]
  rw [splitChar_append_sep '.' _ _ (hnd a), splitChar_append_sep '.' _ _ (hnd b),
    splitChar_append_sep '.' _ _ (hnd c), splitChar_of_not_mem '.' _ (hnd d)]

/-- Parsing the rendering of four in-range octets recovers their value. -/
theorem parseIpv4ToIntL_render (a b c d : Nat)
    (ha : a < 256) (hb : b < 256) (hc : c < 256) (hd : d < 256) :
    parseIpv4ToIntL (ipv4Render a b c d) = some (octetsValue a b c d) := by
  unfold parseIpv4ToIntL
  rw [splitChar_ipv4Render]
  simp only [List.map_cons, List.map_nil, jsParseInt10_renderDec]
  rw [if_neg (by simp)]
  rw [if_neg (by
    simp only [List.any_cons, List.any_nil, Bool.or_false, Bool.or_eq_true,
      decide_eq_true_eq, not_or]
    omega)]
  simp only [List.foldl_cons, List.foldl_nil, Option.getD_some, Int.toNat_natCast,
    octetsValue]
  congr 1
  ring

/-- `Number.parseInt(·, 10)` rejects a string headed by a colon. -/
theorem jsParseInt10_colon_head (t : Chars) : jsParseInt 10 (':' :: t) = none := by
  simp [jsParseInt, jsSign_default ':' t (by decide) (by decide), isJsWhitespace,
    digitVal, hexVal]

/-- The dotted-quad split of the v4-mapped rendering: the `::ffff:`
marker fuses into the first part, which therefore fails decimal parsing. -/
theorem parseIpv4ToIntL_v4Mapped_none (a b c d : Nat) :
    parseIpv4ToIntL (v4MappedRender a b c d) = none := by
  have hnd : ∀ n : Nat, '.' ∉ renderDec n := fun n hmem =>
    absurd rfl (renderDec_plain n '.' hmem).2.2.2.2.2.2.1
  have hx : splitChar '.' (v4MappedRender a b c d) =
      ["::ffff:".data ++ renderDec a, renderDec b, renderDec c, renderDec d] := by
    have h1 : v4MappedRender a b c d =
        ("::ffff:".data ++ renderDec a) ++
          '.' :: (renderDec b ++ '.' :: (renderDec c ++ '.' :: renderDec d)) := by
      unfold v4MappedRender ipv4Render
      simp [List.cons_append, List.append_assoc]
    rw [h1]
    rw [splitChar_append_sep '.' _ _ (by
      intro hmem
      rcases List.mem_append.mp hmem with h | h
      · revert h; decide
      · exact hnd a h)]
    rw [splitChar_append_sep '.' _ _ (hnd b), splitChar_append_sep '.' _ _ (hnd c),
      splitChar_of_not_mem '.' _ (hnd d)]
  have hfail : jsParseInt 10 ("::ffff:".data ++ renderDec a) = none := by
    rw [show ("::ffff:".data : Chars) ++ renderDec a =
      ':' :: (':' :: 'f' :: 'f' :: 'f' :: 'f' :: ':' :: [] ++ renderDec a) from rfl]
    exact jsParseInt10_colon_head _
  unfold parseIpv4ToIntL
  rw [hx]
  simp only [List.map_cons, List.map_nil, hfail]
  rw [if_neg (by simp)]
  rw [if_pos (by simp)]

/-- `normalizeIpLiteral` is the identity away from bracketed forms. -/
theorem normalizeIpLiteral_of_head_ne (l : Chars) (h : l.head? ≠ some '[') :
    normalizeIpLiteral l = l := by
  unfold normalizeIpLiteral
  rw [if_neg (by rintro ⟨h1, -⟩; exact h h1)]

theorem ipv4Render_head_ne_bracket (a b c d : Nat) :
    (ipv4Render a b c d).head? ≠ some '[' := by
  unfold ipv4Render
  simp only [List.cons_append, List.append_assoc]
  rw [List.head?_append_of_ne_nil _ (renderDec_ne_nil a)]
  cases hr : renderDec a with
  | nil => exact absurd hr (renderDec_ne_nil a)
  | cons c0 t0 =>
    have := (renderDec_plain a c0 (by rw [hr]; exact List.mem_cons_self _ _)).2.2.2.2.2.2.2.2.2
    simpa using this

theorem v4MappedRender_head_eq (a b c d : Nat) :
    (v4MappedRender a b c d).head? = some ':' := rfl

/-- A colon-free list splits on `::` into itself. -/
theorem splitSeq_colon2_free (x : Chars) (hx : ':' ∉ x) :
    splitSeq [':', ':'] x = [x] := by
  have h := splitSeq_colon2_block x [] hx
  rw [List.append_nil] at h
  rw [h]
  simp [splitSeq, splitSeqCore]

/-- A single colon before a nonempty colon-free block is no `::`
separator: it joins the current piece. -/
theorem splitSeq_colon2_single_block (x y : Chars) (hxne : x ≠ []) (hx : ':' ∉ x) :
    splitSeq [':', ':'] (':' :: (x ++ y)) =
      match splitSeq [':', ':'] (x ++ y) with
      | h :: tl => (':' :: h) :: tl
      | [] => [[':']] := by
  obtain ⟨d, x', rfl⟩ : ∃ d x', x = d :: x' := by
    cases x with
    | nil => exact absurd rfl hxne
    | cons d x' => exact ⟨d, x', rfl⟩
  have hd : d ≠ ':' := fun hdc => hx (hdc ▸ List.mem_cons_self d x')
  exact splitSeq_colon2_single d x' y hd

/-- Every character of the dotted-quad rendering is a dot or a digit. -/
theorem ipv4Render_chars (a b c d : Nat) : ∀ ch ∈ ipv4Render a b c d,
    ch = '.' ∨ ∃ d10, d10 < 10 ∧ ch = Nat.digitChar d10 := by
  intro ch hch
  unfold ipv4Render at hch
  simp only [List.cons_append, List.append_assoc, List.mem_append, List.mem_cons] at hch
  rcases hch with h | h | h | h | h | h | h
  · exact Or.inr (renderDec_digits a ch h)
  · exact Or.inl h
  · exact Or.inr (renderDec_digits b ch h)
  · exact Or.inl h
  · exact Or.inr (renderDec_digits c ch h)
  · exact Or.inl h
  · exact Or.inr (renderDec_digits d ch h)

theorem ipv4Render_no_colon (a b c d : Nat) : ':' ∉ ipv4Render a b c d := by
  intro hmem
  rcases ipv4Render_chars a b c d ':' hmem with h | ⟨d10, hd10, h⟩
  · exact absurd h (by decide)
  · exact absurd h.symm (digitChar_plain d10 (by omega)).2.2.2.2.1

theorem ipv4Render_no_pct (a b c d : Nat) : '%' ∉ ipv4Render a b c d := by
  intro hmem
  rcases ipv4Render_chars a b c d '%' hmem with h | ⟨d10, hd10, h⟩
  · exact absurd h (by decide)
  · exact absurd h.symm (digitChar_plain d10 (by omega)).2.2.2.2.2.1

/-- One step of the IPv6 segment fold on a successfully parsed group. -/
theorem ipv6FoldSegments_cons (v : Nat) (part : Chars) (rest : List Chars) (s : Nat)
    (hp : jsParseInt 16 part = some (s : Int)) (hs : s ≤ 0xffff) :
    ipv6FoldSegments (some v) (part :: rest) =
      ipv6FoldSegments (some ((v <<< 16) + s)) rest := by
  unfold ipv6FoldSegments
  simp only [List.foldl_cons, hp]
  rw [if_neg (by
    simp only [not_or, not_lt]
    constructor
    · positivity
    · exact_mod_cast hs)]
  simp

theorem ipv6FoldSegments_nil (v : Nat) : ipv6FoldSegments (some v) [] = some v := rfl

/-- The absorbed working form of a v4-mapped literal splits on `::` into
an empty left piece and one right piece. -/
theorem splitSeq_v4working (hi lo : Nat) :
    splitSeq [':', ':']
      (':' :: ':' :: 'f' :: 'f' :: 'f' :: 'f' :: ':' :: (renderHex hi ++ ':' :: renderHex lo)) =
      [[], 'f' :: 'f' :: 'f' :: 'f' :: ':' :: (renderHex hi ++ ':' :: renderHex lo)] := by
  have hhic : ':' ∉ renderHex hi := fun hm =>
    absurd rfl (renderHex_plain hi ':' hm).2.2.2.2.2.2.2.1
  have hloc : ':' ∉ renderHex lo := fun hm =>
    absurd rfl (renderHex_plain lo ':' hm).2.2.2.2.2.2.2.1
  rw [splitSeq_colon2_here]
  have h0 : splitSeq [':', ':'] (renderHex lo) = [renderHex lo] :=
    splitSeq_colon2_free _ hloc
  have h1 : splitSeq [':', ':'] (':' :: renderHex lo) = [':' :: renderHex lo] := by
    have hsb := splitSeq_colon2_single_block (renderHex lo) [] (renderHex_ne_nil lo) hloc
    rw [List.append_nil] at hsb
    rw [hsb, h0]
  have h2 : splitSeq [':', ':'] (renderHex hi ++ ':' :: renderHex lo) =
      [renderHex hi ++ ':' :: renderHex lo] := by
    rw [splitSeq_colon2_block _ _ hhic, h1]
  have h3 : splitSeq [':', ':'] (':' :: (renderHex hi ++ ':' :: renderHex lo)) =
      [':' :: (renderHex hi ++ ':' :: renderHex lo)] := by
    rw [splitSeq_colon2_single_block (renderHex hi) (':' :: renderHex lo)
      (renderHex_ne_nil hi) hhic, h2]
  have h4 := splitSeq_colon2_block ['f', 'f', 'f', 'f']
    (':' :: (renderHex hi ++ ':' :: renderHex lo)) (by decide)
  rw [show ('f' :: 'f' :: 'f' :: 'f' :: ':' :: (renderHex hi ++ ':' :: renderHex lo) : Chars) =
    ['f', 'f', 'f', 'f'] ++ (':' :: (renderHex hi ++ ':' :: renderHex lo)) from rfl, h4, h3]

/-- The colon groups of the right piece of the absorbed working form. -/
theorem splitChar_v4working_rest (hi lo : Nat) :
    splitChar ':' ('f' :: 'f' :: 'f' :: 'f' :: ':' :: (renderHex hi ++ ':' :: renderHex lo)) =
      [['f', 'f', 'f', 'f'], renderHex hi, renderHex lo] := by
  have hhic : ':' ∉ renderHex hi := fun hm =>
    absurd rfl (renderHex_plain hi ':' hm).2.2.2.2.2.2.2.1
  have hloc : ':' ∉ renderHex lo := fun hm =>
    absurd rfl (renderHex_plain lo ':' hm).2.2.2.2.2.2.2.1
  rw [show ('f' :: 'f' :: 'f' :: 'f' :: ':' :: (renderHex hi ++ ':' :: renderHex lo) : Chars) =
    ['f', 'f', 'f', 'f'] ++ ':' :: (renderHex hi ++ ':' :: renderHex lo) from rfl]
  rw [splitChar_append_sep ':' _ _ (by decide),
    splitChar_append_sep ':' _ _ hhic, splitChar_of_not_mem ':' _ hloc]

/-- Evaluation of the IPv6 group structure on the absorbed working form
of a v4-mapped literal. -/
theorem ipv6FromWorking_mapped (hi lo : Nat) (hhi : hi < 65536) (hlo : lo < 65536) :
    ipv6FromWorking
      (':' :: ':' :: 'f' :: 'f' :: 'f' :: 'f' :: ':' :: (renderHex hi ++ ':' :: renderHex lo)) =
      some (0xffff * 2 ^ 32 + hi * 65536 + lo) := by
  unfold ipv6FromWorking
  rw [splitSeq_v4working hi lo]
  rw [if_neg (by simp)]
  have hleft : ipv6SideGroups
      ([[], 'f' :: 'f' :: 'f' :: 'f' :: ':' :: (renderHex hi ++ ':' :: renderHex lo)] :
        List Chars).head? = [] := by
    simp [ipv6SideGroups]
  have hright : ipv6SideGroups
      (([[], 'f' :: 'f' :: 'f' :: 'f' :: ':' :: (renderHex hi ++ ':' :: renderHex lo)] :
        List Chars).get? 1) = [['f', 'f', 'f', 'f'], renderHex hi, renderHex lo] := by
    simp only [List.get?, ipv6SideGroups]
    rw [if_neg (by simp), splitChar_v4working_rest hi lo]
    rw [List.filter_eq_self.mpr (by
      intro a ha
      simp only [List.mem_cons, List.mem_singleton] at ha
      rcases ha with rfl | rfl | rfl | h
      · simp
      · simp [renderHex_ne_nil hi]
      · simp [renderHex_ne_nil lo]
      · exact absurd h (List.not_mem_nil a))]
  rw [hleft, hright]
  rw [if_neg (by simp)]
  rw [if_neg (by simp)]
  rw [if_neg (by simp [List.replicate])]
  norm_num
  rw [show List.replicate (Int.toNat 5) (['0'] : Chars) = [['0'], ['0'], ['0'], ['0'], ['0']] from rfl]
  simp only [List.cons_append, List.nil_append]
  rw [ipv6FoldSegments_cons _ _ _ 0 (by decide) (by norm_num),
    ipv6FoldSegments_cons _ _ _ 0 (by decide) (by norm_num),
    ipv6FoldSegments_cons _ _ _ 0 (by decide) (by norm_num),
    ipv6FoldSegments_cons _ _ _ 0 (by decide) (by norm_num),
    ipv6FoldSegments_cons _ _ _ 0 (by decide) (by norm_num),
    ipv6FoldSegments_cons _ _ _ 65535 (by decide) (by norm_num),
    ipv6FoldSegments_cons _ _ _ hi (jsParseInt16_renderHex hi) (by omega),
    ipv6FoldSegments_cons _ _ _ lo (jsParseInt16_renderHex lo) (by omega),
    ipv6FoldSegments_nil]
  simp only [Nat.shiftLeft_eq]
  norm_num
  ring

/-- The IPv4 absorption step on a canonical v4-mapped literal: the dotted
quad after the last colon is replaced by its two hexadecimal groups. -/
theorem ipv6AbsorbV4_v4Mapped (a b c d : Nat)
    (ha : a < 256) (hb : b < 256) (hc : c < 256) (hd : d < 256) :
    ipv6AbsorbV4 (v4MappedRender a b c d) =
      some (':' :: ':' :: 'f' :: 'f' :: 'f' :: 'f' :: ':' ::
        (renderHex (octetsValue a b c d / 65536) ++
          ':' :: renderHex (octetsValue a b c d % 65536))) := by
  have hv32 : octetsValue a b c d < 4294967296 := by unfold octetsValue; omega
  have hcontains : (v4MappedRender a b c d).contains '.' = true := by
    have hmem : '.' ∈ v4MappedRender a b c d := by
      unfold v4MappedRender ipv4Render
      simp
    simpa using hmem
  have hlast : lastIndexOfChar ':' (v4MappedRender a b c d) = some 6 := by
    unfold v4MappedRender
    rw [lastIndexOfChar_append_right_free ':' _ _ (ipv4Render_no_colon a b c d)]
    decide
  have hdrop : (v4MappedRender a b c d).drop 7 = ipv4Render a b c d := by
    unfold v4MappedRender
    rw [show (7 : Nat) = ("::ffff:".data : Chars).length from rfl, List.drop_left]
  have htake : (v4MappedRender a b c d).take 6 = "::ffff".data := by
    unfold v4MappedRender
    rw [List.take_append_eq_append_take]
    simp
  have hhi : natAnd (octetsValue a b c d >>> 16) 0xffff = octetsValue a b c d / 65536 := by
    rw [Nat.shiftRight_eq_div_pow]
    rw [show (0xffff : Nat) = 2 ^ 16 - 1 from rfl]
    rw [natAnd_two_pow_sub_one _ 16 (by norm_num) (by
      have h128 : (65536 : Nat) < 2 ^ 128 := by norm_num
      have : octetsValue a b c d / 2 ^ 16 < 65536 := by
        have : octetsValue a b c d / 65536 < 65536 := by omega
        simpa using this
      omega)]
    have hlt : octetsValue a b c d / 2 ^ 16 < 2 ^ 16 := by
      have : octetsValue a b c d / 65536 < 65536 := by omega
      simpa using this
    rw [Nat.mod_eq_of_lt hlt]
    norm_num
  have hlo : natAnd (octetsValue a b c d) 0xffff = octetsValue a b c d % 65536 := by
    rw [show (0xffff : Nat) = 2 ^ 16 - 1 from rfl]
    rw [natAnd_two_pow_sub_one _ 16 (by norm_num) (by
      have : (4294967296 : Nat) < 2 ^ 128 := by norm_num
      omega)]
    norm_num
  unfold ipv6AbsorbV4
  rw [hcontains]
  rw [if_pos rfl]
  simp only [hlast, hdrop, parseIpv4ToIntL_render a b c d ha hb hc hd, htake, hhi, hlo]
  simp

/-- Full IPv6 parsing of the canonical v4-mapped literal. -/
theorem parseIpv6ToBigIntL_v4Mapped (a b c d : Nat)
    (ha : a < 256) (hb : b < 256) (hc : c < 256) (hd : d < 256) :
    parseIpv6ToBigIntL (v4MappedRender a b c d) =
      some (0xffff * 2 ^ 32 + octetsValue a b c d) := by
  have hv32 : octetsValue a b c d < 4294967296 := by unfold octetsValue; omega
  have hzone : (v4MappedRender a b c d).takeWhile (fun ch => ch ≠ '%') =
      v4MappedRender a b c d := by
    apply takeWhile_all
    intro ch hch
    unfold v4MappedRender at hch
    rcases List.mem_append.mp hch with h | h
    · exact (by decide : ∀ ch ∈ ("::ffff:".data : Chars), decide (ch ≠ '%') = true) ch h
    · rcases ipv4Render_chars a b c d ch h with rfl | ⟨d10, hd10, rfl⟩
      · decide
      · simpa using (digitChar_plain d10 (by omega)).2.2.2.2.2.1
  have hstep : parseIpv6ToBigIntL (v4MappedRender a b c d) =
      ipv6FromWorking (':' :: ':' :: 'f' :: 'f' :: 'f' :: 'f' :: ':' ::
        (renderHex (octetsValue a b c d / 65536) ++
          ':' :: renderHex (octetsValue a b c d % 65536))) := by
    unfold parseIpv6ToBigIntL
    rw [hzone, ipv6AbsorbV4_v4Mapped a b c d ha hb hc hd]
  rw [hstep, ipv6FromWorking_mapped (octetsValue a b c d / 65536)
    (octetsValue a b c d % 65536) (by omega) (by omega)]
  congr 1
  omega

/-- The IPv6 classifier on a v4-mapped literal recurses into the IPv4
classifier on the re-rendered dotted quad, which is the original quad. -/
theorem isIpv6InternalOrReservedL_v4Mapped (a b c d : Nat)
    (ha : a < 256) (hb : b < 256) (hc : c < 256) (hd : d < 256) :
    isIpv6InternalOrReservedL (v4MappedRender a b c d) =
      isIpv4InternalOrReservedL (ipv4Render a b c d) := by
  have h32 : (2 : Nat) ^ 32 = 4294967296 := by norm_num
  have h24 : (2 : Nat) ^ 24 = 16777216 := by norm_num
  have h16 : (2 : Nat) ^ 16 = 65536 := by norm_num
  have h8 : (2 : Nat) ^ 8 = 256 := by norm_num
  have h128 : (281474976710656 : Nat) < 2 ^ 128 := by norm_num
  have hv32 : octetsValue a b c d < 4294967296 := by unfold octetsValue; omega
  have hval : ¬(0xffff * 2 ^ 32 + octetsValue a b c d = 0 ∨
      0xffff * 2 ^ 32 + octetsValue a b c d = 1) := by omega
  have hshift : (0xffff * 2 ^ 32 + octetsValue a b c d) >>> 32 = 0xffff := by
    rw [Nat.shiftRight_eq_div_pow]
    omega
  have hmask : natAnd (0xffff * 2 ^ 32 + octetsValue a b c d) 0xffffffff =
      octetsValue a b c d := by
    rw [show (0xffffffff : Nat) = 2 ^ 32 - 1 from by norm_num,
      natAnd_two_pow_sub_one _ 32 (by norm_num) (by omega)]
    omega
  have ho1 : natAnd (octetsValue a b c d >>> 24) 0xff = a := by
    rw [Nat.shiftRight_eq_div_pow, show (0xff : Nat) = 2 ^ 8 - 1 from by norm_num,
      natAnd_two_pow_sub_one _ 8 (by norm_num) (by omega)]
    unfold octetsValue
    omega
  have ho2 : natAnd (octetsValue a b c d >>> 16) 0xff = b := by
    rw [Nat.shiftRight_eq_div_pow, show (0xff : Nat) = 2 ^ 8 - 1 from by norm_num,
      natAnd_two_pow_sub_one _ 8 (by norm_num) (by omega)]
    unfold octetsValue
    omega
  have ho3 : natAnd (octetsValue a b c d >>> 8) 0xff = c := by
    rw [Nat.shiftRight_eq_div_pow, show (0xff : Nat) = 2 ^ 8 - 1 from by norm_num,
      natAnd_two_pow_sub_one _ 8 (by norm_num) (by omega)]
    unfold octetsValue
    omega
  have ho4 : natAnd (octetsValue a b c d) 0xff = d := by
    rw [show (0xff : Nat) = 2 ^ 8 - 1 from by norm_num,
      natAnd_two_pow_sub_one _ 8 (by norm_num) (by omega)]
    unfold octetsValue
    omega
  unfold isIpv6InternalOrReservedL
  simp only [parseIpv6ToBigIntL_v4Mapped a b c d ha hb hc hd]
  rw [if_neg hval, if_pos hshift]
  simp only [hmask, ho1, ho2, ho3, ho4]
  rfl

theorem detectIpVersionL_ipv4Render (a b c d : Nat)
    (ha : a < 256) (hb : b < 256) (hc : c < 256) (hd : d < 256) :
    detectIpVersionL (ipv4Render a b c d) = 4 := by
  unfold detectIpVersionL
  rw [parseIpv4ToIntL_render a b c d ha hb hc hd]
  rfl

theorem detectIpVersionL_v4Mapped (a b c d : Nat)
    (ha : a < 256) (hb : b < 256) (hc : c < 256) (hd : d < 256) :
    detectIpVersionL (v4MappedRender a b c d) = 6 := by
  unfold detectIpVersionL
  rw [parseIpv4ToIntL_v4Mapped_none a b c d,
    parseIpv6ToBigIntL_v4Mapped a b c d ha hb hc hd]
  rfl

/-- The classifier result of a canonical v4-mapped literal equals the
classifier result of its embedded dotted quad. -/
theorem isIpInternalOrReserved_v4Mapped (a b c d : Nat)
    (ha : a < 256) (hb : b < 256) (hc : c < 256) (hd : d < 256) :
    isIpInternalOrReserved (String.mk (v4MappedRender a b c d)) =
      isIpInternalOrReserved (String.mk (ipv4Render a b c d)) := by
  unfold isIpInternalOrReserved
  rw [show (String.mk (v4MappedRender a b c d)).data = v4MappedRender a b c d from rfl,
    show (String.mk (ipv4Render a b c d)).data = ipv4Render a b c d from rfl]
  rw [normalizeIpLiteral_of_head_ne _ (by rw [v4MappedRender_head_eq]; simp),
    normalizeIpLiteral_of_head_ne _ (ipv4Render_head_ne_bracket a b c d)]
  simp only [detectIpVersionL_v4Mapped a b c d ha hb hc hd,
    detectIpVersionL_ipv4Render a b c d ha hb hc hd]
  exact isIpv6InternalOrReservedL_v4Mapped a b c d ha hb hc hd

/-- When the allowlist override applies, the address check loop accepts
any list of parseable addresses. -/
theorem checkResolvedAddresses_allow_ok (host : Chars) (addrs : List String)
    (hall : ∀ a ∈ addrs, (isIpInternalOrReserved a).isSome = true) :
    checkResolvedAddresses true host addrs = .ok () := by
  induction addrs with
  | nil => rfl
  | cons a rest ih =>
    obtain ⟨b, hb⟩ := Option.isSome_iff_exists.mp (hall a (List.mem_cons_self a rest))
    unfold checkResolvedAddresses
    simp only [hb]
    rw [if_neg (by simp)]
    exact ih (fun x hx => hall x (List.mem_cons_of_mem a hx))

/-- Without the override, the address check loop rejects any list of
parseable addresses containing an internal one. -/
theorem checkResolvedAddresses_blocked (host : Chars) (addrs : List String)
    (hall : ∀ a ∈ addrs, (isIpInternalOrReserved a).isSome = true)
    (hint : ∃ a ∈ addrs, isIpInternalOrReserved a = some true) :
    checkResolvedAddresses false host addrs ≠ .ok () := by
  induction addrs with
  | nil => simp at hint
  | cons a rest ih =>
    obtain ⟨w, hw, hwi⟩ := hint
    obtain ⟨b, hb⟩ := Option.isSome_iff_exists.mp (hall a (List.mem_cons_self a rest))
    unfold checkResolvedAddresses
    simp only [hb]
    cases b with
    | true =>
      rw [if_pos (by simp)]
      simp
    | false =>
      rw [if_neg (by simp)]
      refine ih (fun x hx => hall x (List.mem_cons_of_mem a hx)) ⟨w, ?_, hwi⟩
      rcases List.mem_cons.mp hw with rfl | h
      · rw [hwi] at hb
        exact absurd hb.symm (by simp)
      · exact h

/-! ## Redirect-loop lemmas -/

theorem parseAndValidateUrlU_ok {u v : URLm} {p : UrlPolicy}
    (h : parseAndValidateUrlU u p = .ok v) :
    v = u ∧ validateUrlAgainstPolicy u p = .ok () := by
  unfold parseAndValidateUrlU at h
  cases hv : validateUrlAgainstPolicy u p with
  | error e => rw [hv] at h; exact absurd h (by simp)
  | ok x =>
    cases x
    rw [hv] at h
    injection h with h
    exact ⟨h.symm, rfl⟩

theorem safeFetchLoop_exchanges_cases (env : SafeFetchEnv) (opts : SafeFetchOptions)
    (f : Nat) (u : URLm) (m : String) (b : Option String) (hd : HeaderList) (rf : Nat) :
    (safeFetchLoop env opts (f + 1) u m b hd rf).exchanges =
        [⟨u, m, hd, withMethodAndBody m b⟩] ∨
      ((rf : Int) < opts.maxRedirects ∧
        ∃ v nm nb h2, validateUrlAgainstPolicy v opts.urlPolicy = .ok () ∧
          (safeFetchLoop env opts (f + 1) u m b hd rf).exchanges =
            ⟨u, m, hd, withMethodAndBody m b⟩ ::
              (safeFetchLoop env opts f v nm nb h2 (rf + 1)).exchanges) := by
  simp only [safeFetchLoop]
  split
  · exact Or.inl rfl
  next =>
  split
  · exact Or.inl rfl
  next hlim =>
  split
  · exact Or.inl rfl
  next loc hloc =>
  split
  · exact Or.inl rfl
  next nc hres =>
  split
  · exact Or.inl rfl
  next v heq =>
  split
  · exact Or.inl rfl
  next hg =>
  refine Or.inr ⟨lt_of_not_ge hlim, v, _, _, _, ?_, rfl⟩
  obtain ⟨h1, h2⟩ := parseAndValidateUrlU_ok heq
  subst h1
  exact h2

theorem safeFetchLoop_head (env : SafeFetchEnv) (opts : SafeFetchOptions)
    (f : Nat) (u : URLm) (m : String) (b : Option String) (hd : HeaderList) (rf : Nat) :
    (safeFetchLoop env opts (f + 1) u m b hd rf).exchanges.head? =
      some ⟨u, m, hd, withMethodAndBody m b⟩ := by
  rcases safeFetchLoop_exchanges_cases env opts f u m b hd rf with h | ⟨_, _, _, _, _, _, h⟩ <;>
    rw [h] <;> rfl

theorem safeFetchLoop_validated (env : SafeFetchEnv) (opts : SafeFetchOptions) :
    ∀ (fuel : Nat) (u : URLm) (m : String) (b : Option String)
      (hd : HeaderList) (rf : Nat),
      validateUrlAgainstPolicy u opts.urlPolicy = .ok () →
      ∀ req ∈ (safeFetchLoop env opts fuel u m b hd rf).exchanges,
        validateUrlAgainstPolicy req.url opts.urlPolicy = .ok () := by
  intro fuel
  induction fuel with
  | zero =>
    intro u m b hd rf _ req hreq
    simp [safeFetchLoop] at hreq
  | succ f ih =>
    intro u m b hd rf hval req hreq
    rcases safeFetchLoop_exchanges_cases env opts f u m b hd rf with
      h | ⟨_, v, nm, nb, h2, hv, h⟩
    · rw [h] at hreq
      simp only [List.mem_singleton] at hreq
      subst hreq
      exact hval
    · rw [h] at hreq
      rcases List.mem_cons.mp hreq with hh | ht
      · subst hh
        exact hval
      · exact ih v nm nb h2 (rf + 1) hv req ht

theorem safeFetchLoop_length (env : SafeFetchEnv) (opts : SafeFetchOptions) :
    ∀ (fuel : Nat) (u : URLm) (m : String) (b : Option String)
      (hd : HeaderList) (rf : Nat),
      (safeFetchLoop env opts fuel u m b hd rf).exchanges.length ≤
        (opts.maxRedirects - (rf : Int)).toNat + 1 := by
  intro fuel
  induction fuel with
  | zero =>
    intro u m b hd rf
    simp [safeFetchLoop]
  | succ f ih =>
    intro u m b hd rf
    rcases safeFetchLoop_exchanges_cases env opts f u m b hd rf with
      h | ⟨hlt, v, nm, nb, h2, _, h⟩
    · rw [h]
      simp
    · rw [h]
      have hrec := ih v nm nb h2 (rf + 1)
      simp only [List.length_cons]
      omega

/-- The run the loop produces when one redirect hop is followed: the
current request followed by the run from the validated target. -/
def loopStep (env : SafeFetchEnv) (opts : SafeFetchOptions) (f : Nat) (u : URLm)
    (m : String) (b : Option String) (hd : HeaderList) (rf : Nat) (v : URLm) :
    SafeFetchRun :=
  let status := (env.server rf ⟨u, m, hd, withMethodAndBody m b⟩).status
  let dg := downgradeFlag status m
  let rest := safeFetchLoop env opts f v (if dg then "GET" else m) (if dg then none else b)
    (nextHopHeaders opts.stripSensitiveHeadersOnCrossHostRedirect
      (URLm.origin u != URLm.origin v) dg hd) (rf + 1)
  ⟨⟨u, m, hd, withMethodAndBody m b⟩ :: rest.exchanges, rest.result⟩

theorem safeFetchLoop_step (env : SafeFetchEnv) (opts : SafeFetchOptions)
    (f : Nat) (u : URLm) (m : String) (b : Option String) (hd : HeaderList) (rf : Nat)
    (loc : String) (v : URLm)
    (hred : isRedirectStatus (env.server rf ⟨u, m, hd, withMethodAndBody m b⟩).status = true)
    (hlim : (rf : Int) < opts.maxRedirects)
    (hloc : (env.server rf ⟨u, m, hd, withMethodAndBody m b⟩).location = some loc)
    (hres : env.resolveLocation loc u = some v)
    (hv : validateUrlAgainstPolicy v opts.urlPolicy = .ok ())
    (hg : externalGuard env opts v.hostname = .ok ()) :
    safeFetchLoop env opts (f + 1) u m b hd rf = loopStep env opts f u m b hd rf v := by
  have hpv : parseAndValidateUrlU v opts.urlPolicy = .ok v := by
    unfold parseAndValidateUrlU
    rw [hv]
  simp only [safeFetchLoop, loopStep, hred, hloc, hres, hpv, hg, not_true, if_false]
  rw [if_neg (not_le.mpr hlim)]

theorem safeFetchLoop_policy_stop (env : SafeFetchEnv) (opts : SafeFetchOptions)
    (f : Nat) (u : URLm) (m : String) (b : Option String) (hd : HeaderList) (rf : Nat)
    (loc : String) (bad : URLm) (e : PolicyError)
    (hred : isRedirectStatus (env.server rf ⟨u, m, hd, withMethodAndBody m b⟩).status = true)
    (hlim : (rf : Int) < opts.maxRedirects)
    (hloc : (env.server rf ⟨u, m, hd, withMethodAndBody m b⟩).location = some loc)
    (hres : env.resolveLocation loc u = some bad)
    (hbad : validateUrlAgainstPolicy bad opts.urlPolicy = .error e) :
    safeFetchLoop env opts (f + 1) u m b hd rf =
      ⟨[⟨u, m, hd, withMethodAndBody m b⟩], .error (.policyViolation e)⟩ := by
  have hpv : parseAndValidateUrlU bad opts.urlPolicy = .error e := by
    unfold parseAndValidateUrlU
    rw [hbad]
  simp only [safeFetchLoop, hred, hloc, hres, hpv, not_true, if_false]
  rw [if_neg (not_le.mpr hlim)]

theorem safeFetchLoop_limit_stop (env : SafeFetchEnv) (opts : SafeFetchOptions)
    (f : Nat) (u : URLm) (m : String) (b : Option String) (hd : HeaderList) (rf : Nat)
    (hred : isRedirectStatus (env.server rf ⟨u, m, hd, withMethodAndBody m b⟩).status = true)
    (hlim : (rf : Int) ≥ opts.maxRedirects) :
    safeFetchLoop env opts (f + 1) u m b hd rf =
      ⟨[⟨u, m, hd, withMethodAndBody m b⟩],
        .error (.redirectLimitExceeded opts.maxRedirects)⟩ := by
  simp only [safeFetchLoop, hred, not_true, if_false]
  rw [if_pos hlim]

theorem hGet_cons (key k val : String) (t : HeaderList) :
    hGet key ((k, val) :: t) =
      if k = String.mk (lowerL key.data) then some val else hGet key t := by
  by_cases hk : k = String.mk (lowerL key.data)
  · rw [if_pos hk]
    unfold hGet
    rw [List.find?_cons_of_pos _ (by simpa using hk)]
    rfl
  · rw [if_neg hk]
    unfold hGet
    rw [List.find?_cons_of_neg _ (by simpa using hk)]

theorem hGet_hDelete (key delKey : String) (h : HeaderList) :
    hGet key (hDelete delKey h) =
      if String.mk (lowerL key.data) = String.mk (lowerL delKey.data) then none
      else hGet key h := by
  induction h with
  | nil => simp [hGet, hDelete]
  | cons p t ih =>
    rcases p with ⟨k, val⟩
    by_cases hkd : k = String.mk (lowerL delKey.data)
    · have hfil : hDelete delKey ((k, val) :: t) = hDelete delKey t := by
        simp [hDelete, List.filter_cons, hkd]
      rw [hfil, ih]
      by_cases hkk : String.mk (lowerL key.data) = String.mk (lowerL delKey.data)
      · rw [if_pos hkk, if_pos hkk]
      · rw [if_neg hkk, if_neg hkk, hGet_cons,
          if_neg (show ¬(k = String.mk (lowerL key.data)) by
            rw [hkd]; exact fun hc => hkk hc.symm)]
    · have hfil : hDelete delKey ((k, val) :: t) = (k, val) :: hDelete delKey t := by
        simp [hDelete, List.filter_cons, hkd]
      rw [hfil, hGet_cons, hGet_cons, ih]
      by_cases hkk : k = String.mk (lowerL key.data)
      · rw [if_pos hkk, if_pos hkk,
          if_neg (show ¬(String.mk (lowerL key.data) = String.mk (lowerL delKey.data)) by
            rw [← hkk]; exact hkd)]
      · rw [if_neg hkk, if_neg hkk]

theorem hGet_dropSensitiveHeaders (key : String) (h : HeaderList) :
    hGet key (dropSensitiveHeaders h) =
      if String.mk (lowerL key.data) ∈ sensitiveHeaderNames then none
      else hGet key h := by
  have e1 : String.mk (lowerL "authorization".data) = "authorization" := rfl
  have e2 : String.mk (lowerL "proxy-authorization".data) = "proxy-authorization" := rfl
  have e3 : String.mk (lowerL "cookie".data) = "cookie" := rfl
  have e4 : String.mk (lowerL "x-hf-authorization".data) = "x-hf-authorization" := rfl
  simp only [dropSensitiveHeaders, sensitiveHeaderNames, List.foldl_cons, List.foldl_nil]
  rw [hGet_hDelete, hGet_hDelete, hGet_hDelete, hGet_hDelete, e1, e2, e3, e4]
  split_ifs with h1 h2 h3 h4 h5 <;> simp_all

theorem hGet_nextHopHeaders (strip cross dg : Bool) (key : String) (h : HeaderList) :
    hGet key (nextHopHeaders strip cross dg h) =
      if (strip = true ∧ cross = true ∧
            String.mk (lowerL key.data) ∈ sensitiveHeaderNames) ∨
          (dg = true ∧ (String.mk (lowerL key.data) = "content-length" ∨
            String.mk (lowerL key.data) = "content-type")) then none
      else hGet key h := by
  have ecl : String.mk (lowerL "content-length".data) = "content-length" := rfl
  have ect : String.mk (lowerL "content-type".data) = "content-type" := rfl
  cases strip <;> cases cross <;> cases dg <;>
    simp only [nextHopHeaders, hGet_hDelete, hGet_dropSensitiveHeaders, ecl, ect,
      if_true, if_false, and_self, and_true, true_and, false_and, and_false,
      or_false, false_or] <;>
    split_ifs <;> simp_all [hGet_dropSensitiveHeaders, hGet_hDelete]

theorem loopStep_get1 (env : SafeFetchEnv) (opts : SafeFetchOptions)
    (f : Nat) (u : URLm) (m : String) (b : Option String) (hd : HeaderList) (rf : Nat)
    (v : URLm) :
    (loopStep env opts (f + 1) u m b hd rf v).exchanges.get? 1 =
      some ⟨v,
        (if downgradeFlag (env.server rf ⟨u, m, hd, withMethodAndBody m b⟩).status m
          then "GET" else m),
        nextHopHeaders opts.stripSensitiveHeadersOnCrossHostRedirect
          (URLm.origin u != URLm.origin v)
          (downgradeFlag (env.server rf ⟨u, m, hd, withMethodAndBody m b⟩).status m) hd,
        withMethodAndBody
          (if downgradeFlag (env.server rf ⟨u, m, hd, withMethodAndBody m b⟩).status m
            then "GET" else m)
          (if downgradeFlag (env.server rf ⟨u, m, hd, withMethodAndBody m b⟩).status m
            then none else b)⟩ := by
  simp only [loopStep]
  rw [List.get?_cons_succ, List.get?_zero, safeFetchLoop_head]

theorem safeFetch_eq_loop {env : SafeFetchEnv} {u : URLm} {opts : SafeFetchOptions}
    {cu : URLm} (hneg : ¬opts.maxRedirects < 0)
    (hv : parseAndValidateUrlU u opts.urlPolicy = .ok cu)
    (hg : externalGuard env opts cu.hostname = .ok ()) :
    safeFetch env u opts =
      safeFetchLoop env opts ((opts.maxRedirects + 1).toNat + 1) cu
        (initialMethod opts) opts.body (headersOfInit opts.headers) 0 := by
  unfold safeFetch
  rw [if_neg hneg]
  simp only [hv, hg]

theorem safeFetch_validated (env : SafeFetchEnv) (u : URLm) (opts : SafeFetchOptions) :
    ∀ req ∈ (safeFetch env u opts).exchanges,
      validateUrlAgainstPolicy req.url opts.urlPolicy = .ok () := by
  intro req hreq
  by_cases hneg : opts.maxRedirects < 0
  · unfold safeFetch at hreq
    rw [if_pos hneg] at hreq
    simp at hreq
  · cases hv : parseAndValidateUrlU u opts.urlPolicy with
    | error e =>
      unfold safeFetch at hreq
      rw [if_neg hneg] at hreq
      simp only [hv] at hreq
      simp at hreq
    | ok cu =>
      cases hg : externalGuard env opts cu.hostname with
      | error e =>
        unfold safeFetch at hreq
        rw [if_neg hneg] at hreq
        simp only [hv, hg] at hreq
        simp at hreq
      | ok x =>
        cases x
        rw [safeFetch_eq_loop hneg hv hg] at hreq
        obtain ⟨h1, h2⟩ := parseAndValidateUrlU_ok hv
        subst h1
        exact safeFetchLoop_validated env opts _ cu (initialMethod opts) opts.body
          (headersOfInit opts.headers) 0 h2 req hreq

theorem safeFetch_length (env : SafeFetchEnv) (u : URLm) (opts : SafeFetchOptions) :
    (safeFetch env u opts).exchanges.length ≤ opts.maxRedirects.toNat + 1 := by
  by_cases hneg : opts.maxRedirects < 0
  · unfold safeFetch
    rw [if_pos hneg]
    simp
  · cases hv : parseAndValidateUrlU u opts.urlPolicy with
    | error e =>
      unfold safeFetch
      rw [if_neg hneg]
      simp only [hv]
      simp
    | ok cu =>
      cases hg : externalGuard env opts cu.hostname with
      | error e =>
        unfold safeFetch
        rw [if_neg hneg]
        simp only [hv, hg]
        simp
      | ok x =>
        cases x
        rw [safeFetch_eq_loop hneg hv hg]
        have hb := safeFetchLoop_length env opts ((opts.maxRedirects + 1).toNat + 1) cu
          (initialMethod opts) opts.body (headersOfInit opts.headers) 0
        simp only [Nat.cast_zero, sub_zero] at hb
        exact hb

/-! ## Rewrite-scanner and registry lemmas -/

theorem stringDataInj {s t : String} (h : s.data = t.data) : s = t := by
  cases s
  cases t
  exact congrArg String.mk (by simpa using h)

theorem hostScan_none (s : Chars)
    (h : ∀ i < s.length, "/gradio_api".data.isPrefixOf (s.drop i) = false) :
    ∀ acc, hostScan acc s = none := by
  induction s with
  | nil => intro acc; rfl
  | cons c t ih =>
    intro acc
    rw [hostScan]
    have hin : ∀ acc', hostScan acc' t = none :=
      ih (fun i hi => h (i + 1) (by simpa using Nat.succ_lt_succ hi))
    have hinner : (if urlHostChar c then hostScan (c :: acc) t else none) = none := by
      split
      · exact hin _
      · rfl
    simp only [hinner]
    have hpf : "/gradio_api".data.isPrefixOf (c :: t) = false := h 0 (by simp)
    rw [if_neg (by
      rintro ⟨hp, -⟩
      rw [hpf] at hp
      exact Bool.false_ne_true hp)]

theorem hostScan_append : ∀ (s acc : Chars),
    (∀ c ∈ s, urlHostChar c = true ∧ c ≠ '/') → (acc ≠ [] ∨ s ≠ []) →
    hostScan acc (s ++ "/gradio_api".data) = some (acc.reverse ++ s, []) := by
  intro s
  induction s with
  | nil =>
    intro acc _ hne
    have hacc : acc ≠ [] := by
      rcases hne with h' | h'
      · exact h'
      · exact absurd rfl h'
    rw [show (([] : Chars) ++ "/gradio_api".data) = '/' :: "gradio_api".data from rfl,
      hostScan]
    have hinner : (if urlHostChar '/' then hostScan ('/' :: acc) "gradio_api".data
        else none) = none := by
      split
      · exact hostScan_none "gradio_api".data (by decide) _
      · rfl
    simp only [hinner]
    rw [if_pos ⟨by decide, hacc⟩,
      show ('/' :: "gradio_api".data).drop 11 = ([] : Chars) from rfl]
    simp
  | cons a ta ih =>
    intro acc h hne
    rw [List.cons_append, hostScan]
    have ha := h a (List.mem_cons_self a ta)
    have hinner : (if urlHostChar a then hostScan (a :: acc) (ta ++ "/gradio_api".data)
        else none) = some ((a :: acc).reverse ++ ta, []) := by
      rw [if_pos ha.1]
      exact ih (a :: acc) (fun c hc => h c (List.mem_cons_of_mem a hc))
        (Or.inl (by simp))
    simp only [hinner]
    simp [List.reverse_cons, List.append_assoc]

theorem rewriteGo_nil (rid : Chars) : ∀ f, rewriteGo rid f [] = [] := by
  intro f
  cases f <;> rfl

theorem isPrefixOf_append (l1 l2 : Chars) : l1.isPrefixOf (l1 ++ l2) = true := by
  induction l1 with
  | nil => simp [List.isPrefixOf]
  | cons c t ih => simp [List.isPrefixOf, ih]

theorem append_sep_inj : ∀ (la lb lx ly : Chars), '_' ∉ la → '_' ∉ lb →
    la ++ '_' :: lx = lb ++ '_' :: ly → la = lb ∧ lx = ly := by
  intro la
  induction la with
  | nil =>
    intro lb lx ly _ hb h
    cases lb with
    | nil =>
      simp only [List.nil_append] at h
      exact ⟨rfl, (List.cons.injEq _ _ _ _ ▸ h).2⟩
    | cons c t =>
      simp only [List.nil_append, List.cons_append, List.cons.injEq] at h
      exact absurd (h.1 ▸ List.mem_cons_self c t) hb
  | cons a ta ih =>
    intro lb lx ly ha hb h
    cases lb with
    | nil =>
      simp only [List.nil_append, List.cons_append, List.cons.injEq] at h
      exact absurd (h.1 ▸ List.mem_cons_self a ta) ha
    | cons c t =>
      simp only [List.cons_append, List.cons.injEq] at h
      obtain ⟨hac, h'⟩ := h
      obtain ⟨h1, h2⟩ := ih t lx ly (fun hm => ha (List.mem_cons_of_mem a hm))
        (fun hm => hb (List.mem_cons_of_mem c hm)) h'
      exact ⟨by rw [hac, h1], h2⟩

theorem string_sep_inj {a b x y : String} (ha : '_' ∉ a.data) (hb : '_' ∉ b.data)
    (h : a ++ "_" ++ x = b ++ "_" ++ y) : a = b ∧ x = y := by
  have hd := congrArg String.data h
  simp only [String.data_append] at hd
  rw [List.append_assoc, List.append_assoc,
    List.singleton_append, List.singleton_append] at hd
  obtain ⟨h1, h2⟩ := append_sep_inj a.data b.data x.data y.data ha hb hd
  exact ⟨stringDataInj h1, stringDataInj h2⟩

theorem mem_fetchProxyToolSchemas {s : ProxyToolSource} {outcome : UpstreamOutcome}
    {q : Bool} {d : ProxyToolDefinition}
    (hd : d ∈ fetchProxyToolSchemas s outcome q) :
    d.proxyId = s.proxyId ∧
      d.toolName = if q then s.proxyId ++ "_" ++ d.upstreamToolName
        else d.upstreamToolName := by
  cases outcome with
  | failure => simp [fetchProxyToolSchemas] at hd
  | toolList tools =>
    simp only [fetchProxyToolSchemas] at hd
    split at hd
    · simp at hd
    · obtain ⟨t, ht, hbuild⟩ := List.mem_filterMap.mp hd
      cases hts : t.inputSchema with
      | none => simp [buildProxyToolDefinition, hts] at hbuild
      | some schema =>
        simp only [buildProxyToolDefinition, hts] at hbuild
        split at hbuild
        · simp at hbuild
        · injection hbuild with hbuild
          subst hbuild
          exact ⟨rfl, rfl⟩

theorem fetch_toolNames_nodup (s : ProxyToolSource) (o : UpstreamOutcome) (q : Bool)
    (h : ((fetchProxyToolSchemas s o q).map (fun d => d.upstreamToolName)).Nodup) :
    ((fetchProxyToolSchemas s o q).map (fun d => d.toolName)).Nodup := by
  cases q with
  | false =>
    have heq : (fetchProxyToolSchemas s o false).map (fun d => d.toolName) =
        (fetchProxyToolSchemas s o false).map (fun d => d.upstreamToolName) :=
      List.map_congr_left (fun d hd => by
        rw [(mem_fetchProxyToolSchemas hd).2, if_neg (by simp)])
    rw [heq]
    exact h
  | true =>
    have heq : (fetchProxyToolSchemas s o true).map (fun d => d.toolName) =
        ((fetchProxyToolSchemas s o true).map (fun d => d.upstreamToolName)).map
          (fun n => s.proxyId ++ "_" ++ n) := by
      rw [List.map_map]
      exact List.map_congr_left (fun d hd => by
        rw [(mem_fetchProxyToolSchemas hd).2, if_pos rfl]
        rfl)
    rw [heq]
    refine h.map (fun x y hxy => ?_)
    have hdx := congrArg String.data hxy
    simp only [String.data_append] at hdx
    exact stringDataInj (List.append_cancel_left hdx)

theorem flatMap_toolNames_nodup :
    ∀ (srcs : List ProxyToolSource) (answers : ProxyToolSource → UpstreamOutcome)
      (q : Bool),
      (srcs.map (fun s => s.proxyId)).Nodup →
      (∀ s ∈ srcs, '_' ∉ s.proxyId.data) →
      (∀ s ∈ srcs, ((fetchProxyToolSchemas s (answers s) q).map
        (fun d => d.upstreamToolName)).Nodup) →
      (q = true ∨ srcs.length ≤ 1) →
      ((srcs.flatMap (fun s => fetchProxyToolSchemas s (answers s) q)).map
        (fun d => d.toolName)).Nodup := by
  intro srcs answers q
  induction srcs with
  | nil => intro _ _ _ _; simp
  | cons s rest ih =>
    intro hid hu hnames hq
    rw [List.flatMap_cons, List.map_append, List.nodup_append]
    have hheadname := fetch_toolNames_nodup s (answers s) q
      (hnames s (List.mem_cons_self s rest))
    rcases hq with hq | hlen
    · refine ⟨hheadname, ?_, ?_⟩
      · exact ih (by simpa using hid.of_cons) (fun x hx => hu x (List.mem_cons_of_mem s hx))
          (fun x hx => hnames x (List.mem_cons_of_mem s hx)) (Or.inl hq)
      · intro x hx1 hx2
        obtain ⟨d1, hd1, hx1e⟩ := List.mem_map.mp hx1
        obtain ⟨d2, hd2, hx2e⟩ := List.mem_map.mp hx2
        obtain ⟨s2, hs2, hd2s⟩ := List.mem_flatMap.mp hd2
        have hm1 := mem_fetchProxyToolSchemas hd1
        have hm2 := mem_fetchProxyToolSchemas hd2s
        rw [hq] at hm1 hm2
        rw [hm1.2, if_pos rfl] at hx1e
        rw [hm2.2, if_pos rfl] at hx2e
        have hne : s.proxyId ≠ s2.proxyId := by
          intro hcontr
          have hnotmem := (List.nodup_cons.mp hid).1
          refine hnotmem ?_
          show s.proxyId ∈ List.map (fun s => s.proxyId) rest
          rw [hcontr]
          exact List.mem_map.mpr ⟨s2, hs2, rfl⟩
        exact hne (string_sep_inj (hu s (List.mem_cons_self s rest))
          (hu s2 (List.mem_cons_of_mem s hs2)) (hx1e.trans hx2e.symm)).1
    · have hrest : rest = [] := by
        cases rest with
        | nil => rfl
        | cons _ _ => simp at hlen
      subst hrest
      refine ⟨hheadname, by simp, by simp⟩

/-! ## Claims -/

/-- C2: `isIpInternalOrReserved` classifies every listed private,
loopback, link-local, CGNAT, documentation, benchmarking, multicast and
reserved literal as internal (`some true`), classifies the listed public
literals `8.8.8.8`, `1.1.1.1` and `2606:4700:4700::1111` as external
(`some false`), and classifies every canonical v4-mapped form
`::ffff:a.b.c.d` exactly like the embedded literal `a.b.c.d`. -/
theorem c2_address_classifier :
    (∀ ip ∈ ["0.0.0.0", "10.0.0.0", "100.64.0.0", "127.0.0.1", "169.254.1.1",
        "172.16.0.5", "192.0.0.1", "192.0.2.1", "192.88.99.1", "192.168.1.1",
        "198.18.0.1", "198.51.100.1", "203.0.113.1", "224.0.0.1", "240.0.0.1",
        "::1", "fc00::1", "fe80::1", "2001:db8::1"],
      isIpInternalOrReserved ip = some true) ∧
    (∀ ip ∈ ["8.8.8.8", "1.1.1.1", "2606:4700:4700::1111"],
      isIpInternalOrReserved ip = some false) ∧
    (∀ a b c d : Nat, a < 256 → b < 256 → c < 256 → d < 256 →
      isIpInternalOrReserved (String.mk (v4MappedRender a b c d)) =
        isIpInternalOrReserved (String.mk (ipv4Render a b c d))) := by
  refine ⟨by decide, by decide, ?_⟩
  intro a b c d ha hb hc hd
  exact isIpInternalOrReserved_v4Mapped a b c d ha hb hc hd

/-- Witness for C2 at concrete inputs: `10.0.0.0` is internal and the
v4-mapped form of `10.0.0.1` classifies like `10.0.0.1` itself (the
rendered strings being the expected literals). -/
theorem c2_witness :
    isIpInternalOrReserved "10.0.0.0" = some true ∧
    (isIpInternalOrReserved (String.mk (v4MappedRender 10 0 0 1)) =
      isIpInternalOrReserved (String.mk (ipv4Render 10 0 0 1)) ∧
      String.mk (v4MappedRender 10 0 0 1) = "::ffff:10.0.0.1" ∧
      String.mk (ipv4Render 10 0 0 1) = "10.0.0.1" ∧
      isIpInternalOrReserved "::ffff:10.0.0.1" = some true) :=
  ⟨c2_address_classifier.1 "10.0.0.0" (by decide),
    c2_address_classifier.2.2 10 0 0 1 (by decide) (by decide) (by decide) (by decide),
    by decide, by decide, by decide⟩

/-- The claimed docs policy of C4: https only, host `huggingface.co`,
required path prefix `/docs/`. -/
def docsClaimPolicy : UrlPolicy :=
  { allowedProtocols := ["https:"], allowedHosts := some ["huggingface.co"],
    pathRules := some { requiredStart := some "/docs/" } }

/-- C4: under the docs policy, `https://huggingface.co/docs/transformers`
validates, the same URL over `http:` fails with a protocol violation,
`https://huggingface.co/docs/..%2fsecret` fails with a path violation
(encoded separator), and `https://evil.com/docs/x` fails with a host
violation. -/
theorem c4_docs_policy_cases :
    validateUrlAgainstPolicy
        { protocol := "https:", hostname := "huggingface.co",
          pathname := "/docs/transformers" } docsClaimPolicy = .ok () ∧
    validateUrlAgainstPolicy
        { protocol := "http:", hostname := "huggingface.co",
          pathname := "/docs/transformers" } docsClaimPolicy =
      .error (.protocolNotAllowed "http:") ∧
    validateUrlAgainstPolicy
        { protocol := "https:", hostname := "huggingface.co",
          pathname := "/docs/..%2fsecret" } docsClaimPolicy =
      .error .pathEncodedSeparators ∧
    validateUrlAgainstPolicy
        { protocol := "https:", hostname := "evil.com",
          pathname := "/docs/x" } docsClaimPolicy =
      .error (.hostnameNotAllowed "evil.com") := by
  decide

/-- Counterexample to C3: with the operator allowlist set to
`127.0.0.1`, the hostname `127.0.0.1` matches an allow pattern, yet
`assertExternalAddress` still raises the blocked-address error — the
allowlist override is consulted only on the DNS-resolution path, never
for IP-literal hostnames. -/
theorem c3_counterexample :
    isInternalAddressAllowedForHostname (some "127.0.0.1") "127.0.0.1".data = true ∧
    assertExternalAddress (some "127.0.0.1") [] [] "127.0.0.1" {} =
      .error (.addressBlockedLiteral "127.0.0.1".data) := by
  decide

/-- C3 as amended: (1) for a hostname that is not an IP literal and whose
(parseable) DNS answers include an internal address, the guard accepts
exactly when the hostname matches an operator allow pattern; (2) for a
hostname that is an internal IP literal, the guard rejects regardless of
the allowlist. -/
theorem c3_amended_guard :
    (∀ (env : Option String) (l1 l2 : List String) (host : String)
        (opts : ExternalAddressOptions),
      ipNormalizeHostname host.data ≠ [] →
      detectIpVersionL (normalizeIpLiteral (ipNormalizeHostname host.data)) = 0 →
      l1 ≠ [] →
      (∀ addr ∈ l1 ++ (if opts.allowDnsRebindMitigation then l2 else []),
        (isIpInternalOrReserved addr).isSome = true) →
      (∃ addr ∈ l1, isIpInternalOrReserved addr = some true) →
      ((assertExternalAddress env l1 l2 host opts = .ok ()) ↔
        isInternalAddressAllowedForHostname env (ipNormalizeHostname host.data) = true)) ∧
    (∀ (env : Option String) (l1 l2 : List String) (host : String)
        (opts : ExternalAddressOptions),
      ipNormalizeHostname host.data ≠ [] →
      detectIpVersionL (normalizeIpLiteral (ipNormalizeHostname host.data)) ≠ 0 →
      isIpInternalOrReserved
        (String.mk (normalizeIpLiteral (ipNormalizeHostname host.data))) = some true →
      assertExternalAddress env l1 l2 host opts =
        .error (.addressBlockedLiteral (normalizeIpLiteral (ipNormalizeHostname host.data)))) := by
  constructor
  · intro env l1 l2 host opts hn hlit hl1 hall hint
    unfold assertExternalAddress
    rw [if_neg (by simpa using hn)]
    rw [if_neg (by simpa using hlit)]
    rw [if_neg (by simpa using hl1)]
    have hall1 : ∀ a ∈ l1, (isIpInternalOrReserved a).isSome = true :=
      fun a ha => hall a (List.mem_append.mpr (Or.inl ha))
    by_cases hallow :
        isInternalAddressAllowedForHostname env (ipNormalizeHostname host.data) = true
    · rw [hallow]
      rw [checkResolvedAddresses_allow_ok _ l1 hall1]
      by_cases hmit : opts.allowDnsRebindMitigation = true
      · rw [if_pos hmit]
        rw [checkResolvedAddresses_allow_ok _ l2 (fun a ha =>
          hall a (List.mem_append.mpr (Or.inr (by rw [hmit] at *; simpa using ha))))]
        simp [hallow]
      · rw [if_neg hmit]
        simp [hallow]
    · have hfalse : isInternalAddressAllowedForHostname env
          (ipNormalizeHostname host.data) = false := by
        revert hallow
        cases isInternalAddressAllowedForHostname env (ipNormalizeHostname host.data) <;> simp
      rw [hfalse]
      have hne := checkResolvedAddresses_blocked (ipNormalizeHostname host.data) l1 hall1 hint
      constructor
      · intro hok
        exfalso
        apply hne
        revert hok
        cases hcr : checkResolvedAddresses false (ipNormalizeHostname host.data) l1 with
        | ok u => cases u; intro; rfl
        | error e => intro hok; simp at hok
      · intro hcontr
        simp at hcontr
  · intro env l1 l2 host opts hn hlit hint
    unfold assertExternalAddress
    rw [if_neg (by simpa using hn)]
    rw [if_pos (by simpa using hlit)]
    simp only [hint]

/-- Witness for the amended C3 at a concrete input: a hostname resolving
to `10.0.0.1` with no allowlist is accepted exactly never (the allowlist
condition is false and the guard indeed rejects). -/
theorem c3_witness :
    ((assertExternalAddress none ["10.0.0.1"] [] "internal.test" {} = .ok ()) ↔
      isInternalAddressAllowedForHostname none
        (ipNormalizeHostname "internal.test".data) = true) ∧
    isInternalAddressAllowedForHostname none
      (ipNormalizeHostname "internal.test".data) = false :=
  ⟨c3_amended_guard.1 none ["10.0.0.1"] [] "internal.test" {} (by decide) (by decide)
    (by decide) (by decide) (by decide), by decide⟩

/-- **C1** Every underlying exchange a `safeFetch` run issues is for a URL
accepted by `validateUrlAgainstPolicy` under the run's own `urlPolicy`;
and when the first response is a redirect whose resolved target violates
the policy, the run ends in that `PolicyViolation` with exactly the one
initial exchange issued. -/
theorem c1_every_exchange_validated :
    (∀ (env : SafeFetchEnv) (u : URLm) (opts : SafeFetchOptions),
        ∀ req ∈ (safeFetch env u opts).exchanges,
          validateUrlAgainstPolicy req.url opts.urlPolicy = .ok ()) ∧
    (∀ (env : SafeFetchEnv) (u : URLm) (opts : SafeFetchOptions) (loc : String)
        (bad : URLm) (e : PolicyError),
        0 < opts.maxRedirects →
        validateUrlAgainstPolicy u opts.urlPolicy = .ok () →
        externalGuard env opts u.hostname = .ok () →
        isRedirectStatus (env.server 0 (firstRequest u opts)).status = true →
        (env.server 0 (firstRequest u opts)).location = some loc →
        env.resolveLocation loc u = some bad →
        validateUrlAgainstPolicy bad opts.urlPolicy = .error e →
        safeFetch env u opts = ⟨[firstRequest u opts], .error (.policyViolation e)⟩) := by
  constructor
  · exact safeFetch_validated
  · intro env u opts loc bad e hmax hval hguard hred hloc hres hbad
    have hpv : parseAndValidateUrlU u opts.urlPolicy = .ok u := by
      unfold parseAndValidateUrlU
      rw [hval]
    have hneg : ¬opts.maxRedirects < 0 := by omega
    rw [safeFetch_eq_loop hneg hpv hguard]
    exact safeFetchLoop_policy_stop env opts _ u (initialMethod opts) opts.body
      (headersOfInit opts.headers) 0 loc bad e hred (by simpa using hmax) hloc hres hbad

/-- Witness for C1 at a concrete run: a host-pinned policy, a server
redirecting to `evil.example`, and the resulting one-exchange
`PolicyViolation`. -/
theorem c1_witness :
    validateUrlAgainstPolicy scnUrlA scnOpts.urlPolicy = .ok () ∧
    validateUrlAgainstPolicy scnUrlEvil scnOpts.urlPolicy =
      .error (.hostnameNotAllowed "evil.example") ∧
    safeFetch scnEnvEvil scnUrlA scnOpts =
      ⟨[firstRequest scnUrlA scnOpts],
        .error (.policyViolation (.hostnameNotAllowed "evil.example"))⟩ :=
  ⟨by decide, by decide,
    c1_every_exchange_validated.2 scnEnvEvil scnUrlA scnOpts "https://evil.example/x"
      scnUrlEvil (.hostnameNotAllowed "evil.example") (by decide) (by decide) (by decide)
      (by decide) (by decide) (by decide) (by decide)⟩

/-- **C6** A `safeFetch` run never issues more than `maxRedirects + 1`
underlying exchanges; and with `maxRedirects = 1` against a server whose
first response is a followable redirect and whose second response is
again a redirect, the run fails with `RedirectLimitExceeded 1` after
exactly two exchanges. -/
theorem c6_redirect_budget :
    (∀ (env : SafeFetchEnv) (u : URLm) (opts : SafeFetchOptions),
        (safeFetch env u opts).exchanges.length ≤ opts.maxRedirects.toNat + 1) ∧
    (∀ (env : SafeFetchEnv) (u : URLm) (opts : SafeFetchOptions) (loc : String) (v : URLm),
        opts.maxRedirects = 1 →
        validateUrlAgainstPolicy u opts.urlPolicy = .ok () →
        externalGuard env opts u.hostname = .ok () →
        isRedirectStatus (env.server 0 (firstRequest u opts)).status = true →
        (env.server 0 (firstRequest u opts)).location = some loc →
        env.resolveLocation loc u = some v →
        validateUrlAgainstPolicy v opts.urlPolicy = .ok () →
        externalGuard env opts v.hostname = .ok () →
        (∀ req : SFRequest, isRedirectStatus (env.server 1 req).status = true) →
        (safeFetch env u opts).result = .error (.redirectLimitExceeded 1) ∧
          (safeFetch env u opts).exchanges.length = 2) := by
  constructor
  · exact safeFetch_length
  · intro env u opts loc v hm hval hguard hred0 hloc0 hres0 hv hg hred1
    have hpv : parseAndValidateUrlU u opts.urlPolicy = .ok u := by
      unfold parseAndValidateUrlU
      rw [hval]
    have hneg : ¬opts.maxRedirects < 0 := by rw [hm]; decide
    have hlim0 : ((0 : Nat) : Int) < opts.maxRedirects := by rw [hm]; decide
    rw [safeFetch_eq_loop hneg hpv hguard]
    rw [safeFetchLoop_step env opts _ u (initialMethod opts) opts.body
      (headersOfInit opts.headers) 0 loc v hred0 hlim0 hloc0 hres0 hv hg]
    simp only [loopStep]
    have hfuel : (opts.maxRedirects + 1).toNat = 1 + 1 := by rw [hm]; decide
    rw [hfuel]
    rw [safeFetchLoop_limit_stop env opts 1 v _ _ _ 1 (hred1 _)
      (by rw [hm]; decide)]
    exact ⟨by rw [hm], by simp⟩

/-- Witness for C6 at a concrete run: `maxRedirects = 1` against an
always-redirecting in-policy server. -/
theorem c6_witness :
    (safeFetch scnEnvLoop scnUrlA scn6Opts).result = .error (.redirectLimitExceeded 1) ∧
      (safeFetch scnEnvLoop scnUrlA scn6Opts).exchanges.length = 2 :=
  c6_redirect_budget.2 scnEnvLoop scnUrlA scn6Opts "https://ok.example/b" scnUrlB rfl
    (by decide) (by decide) (by decide) (by decide) (by decide) (by decide) (by decide)
    (fun _ => rfl)

/-- **C5 (counterexample)** The claim's same-origin half fails: a
same-origin 303 redirect of a POST drops the `content-type` header from
the follow-up exchange, so not every header is preserved. -/
theorem c5_counterexample :
    (safeFetch scn5Env scnUrlA scn5Opts).exchanges.map (fun r => URLm.origin r.url) =
      ["https://ok.example", "https://ok.example"] ∧
    (safeFetch scn5Env scnUrlA scn5Opts).exchanges.map
        (fun r => hGet "content-type" r.headers) =
      [some "application/json", none] := by
  constructor <;> decide

/-- **C5 (amended)** For every followed redirect hop, the follow-up
exchange's header set is exactly the strip-then-downgrade transform of
the current one: a name is dropped iff it is a sensitive header on an
(enabled) cross-origin hop, or `content-length`/`content-type` on a
method-downgrade hop; every other header is preserved unchanged.  In
particular all four sensitive headers are removed on every cross-origin
hop, and a same-origin hop keeps them. -/
theorem c5_amended_headers :
    ∀ (env : SafeFetchEnv) (opts : SafeFetchOptions) (f : Nat) (u : URLm) (m : String)
      (b : Option String) (hd : HeaderList) (rf : Nat) (loc : String) (v : URLm),
      isRedirectStatus (env.server rf ⟨u, m, hd, withMethodAndBody m b⟩).status = true →
      (rf : Int) < opts.maxRedirects →
      (env.server rf ⟨u, m, hd, withMethodAndBody m b⟩).location = some loc →
      env.resolveLocation loc u = some v →
      validateUrlAgainstPolicy v opts.urlPolicy = .ok () →
      externalGuard env opts v.hostname = .ok () →
      ∃ req1, (safeFetchLoop env opts (f + 2) u m b hd rf).exchanges.get? 1 = some req1 ∧
        req1.headers =
          nextHopHeaders opts.stripSensitiveHeadersOnCrossHostRedirect
            (URLm.origin u != URLm.origin v)
            (downgradeFlag (env.server rf ⟨u, m, hd, withMethodAndBody m b⟩).status m) hd ∧
        ∀ key : String,
          hGet key req1.headers =
            if (opts.stripSensitiveHeadersOnCrossHostRedirect = true ∧
                  (URLm.origin u != URLm.origin v) = true ∧
                  String.mk (lowerL key.data) ∈ sensitiveHeaderNames) ∨
                (downgradeFlag (env.server rf ⟨u, m, hd, withMethodAndBody m b⟩).status m
                    = true ∧
                  (String.mk (lowerL key.data) = "content-length" ∨
                    String.mk (lowerL key.data) = "content-type")) then none
            else hGet key hd := by
  intro env opts f u m b hd rf loc v hred hlim hloc hres hv hg
  rw [show f + 2 = (f + 1) + 1 from rfl,
    safeFetchLoop_step env opts (f + 1) u m b hd rf loc v hred hlim hloc hres hv hg]
  exact ⟨_, loopStep_get1 env opts f u m b hd rf v, rfl,
    fun key => hGet_nextHopHeaders _ _ _ key hd⟩

/-- Witness for the amended C5 at the concrete same-origin 303 hop of the
`scn5` scenario. -/
theorem c5_witness :
    ∃ req1, (safeFetchLoop scn5Env scn5Opts 2 scnUrlA "POST" (some "payload")
        (headersOfInit scn5Opts.headers) 0).exchanges.get? 1 = some req1 ∧
      req1.headers =
        nextHopHeaders scn5Opts.stripSensitiveHeadersOnCrossHostRedirect
          (URLm.origin scnUrlA != URLm.origin scnUrlB)
          (downgradeFlag (scn5Env.server 0 ⟨scnUrlA, "POST",
            headersOfInit scn5Opts.headers,
            withMethodAndBody "POST" (some "payload")⟩).status "POST")
          (headersOfInit scn5Opts.headers) ∧
      ∀ key : String,
        hGet key req1.headers =
          if (scn5Opts.stripSensitiveHeadersOnCrossHostRedirect = true ∧
                (URLm.origin scnUrlA != URLm.origin scnUrlB) = true ∧
                String.mk (lowerL key.data) ∈ sensitiveHeaderNames) ∨
              (downgradeFlag (scn5Env.server 0 ⟨scnUrlA, "POST",
                  headersOfInit scn5Opts.headers,
                  withMethodAndBody "POST" (some "payload")⟩).status "POST" = true ∧
                (String.mk (lowerL key.data) = "content-length" ∨
                  String.mk (lowerL key.data) = "content-type")) then none
          else hGet key (headersOfInit scn5Opts.headers) :=
  c5_amended_headers scn5Env scn5Opts 0 scnUrlA "POST" (some "payload")
    (headersOfInit scn5Opts.headers) 0 "https://ok.example/b" scnUrlB (by decide)
    (by decide) (by decide) (by decide) (by decide) (by decide)

/-- **C7** For every followed redirect hop: if the response status
triggers the downgrade rule (303, or 301/302 answering a POST), the
follow-up exchange uses method GET with no body and without the
`content-length`/`content-type` headers; if the status is 307 or 308,
the follow-up exchange keeps the method, the body, and both headers
unchanged. -/
theorem c7_method_body_policy :
    ∀ (env : SafeFetchEnv) (opts : SafeFetchOptions) (f : Nat) (u : URLm) (m : String)
      (b : Option String) (hd : HeaderList) (rf : Nat) (loc : String) (v : URLm),
      isRedirectStatus (env.server rf ⟨u, m, hd, withMethodAndBody m b⟩).status = true →
      (rf : Int) < opts.maxRedirects →
      (env.server rf ⟨u, m, hd, withMethodAndBody m b⟩).location = some loc →
      env.resolveLocation loc u = some v →
      validateUrlAgainstPolicy v opts.urlPolicy = .ok () →
      externalGuard env opts v.hostname = .ok () →
      ∃ req1, (safeFetchLoop env opts (f + 2) u m b hd rf).exchanges.get? 1 = some req1 ∧
        (downgradeFlag (env.server rf ⟨u, m, hd, withMethodAndBody m b⟩).status m = true →
          req1.method = "GET" ∧ req1.body = none ∧
          hGet "content-length" req1.headers = none ∧
          hGet "content-type" req1.headers = none) ∧
        ((env.server rf ⟨u, m, hd, withMethodAndBody m b⟩).status = 307 ∨
            (env.server rf ⟨u, m, hd, withMethodAndBody m b⟩).status = 308 →
          req1.method = m ∧ req1.body = withMethodAndBody m b ∧
          hGet "content-length" req1.headers = hGet "content-length" hd ∧
          hGet "content-type" req1.headers = hGet "content-type" hd) := by
  intro env opts f u m b hd rf loc v hred hlim hloc hres hv hg
  rw [show f + 2 = (f + 1) + 1 from rfl,
    safeFetchLoop_step env opts (f + 1) u m b hd rf loc v hred hlim hloc hres hv hg]
  have ecl : String.mk (lowerL "content-length".data) = "content-length" := rfl
  have ect : String.mk (lowerL "content-type".data) = "content-type" := rfl
  refine ⟨_, loopStep_get1 env opts f u m b hd rf v, ?_, ?_⟩
  · intro hdg
    have hbody : withMethodAndBody "GET" none = none := by decide
    refine ⟨by simp [hdg], by simp [hdg, hbody], ?_, ?_⟩
    · simp only [hGet_nextHopHeaders, ecl]
      rw [if_pos (Or.inr ⟨hdg, by simp⟩)]
    · simp only [hGet_nextHopHeaders, ect]
      rw [if_pos (Or.inr ⟨hdg, by simp⟩)]
  · intro hst
    have hdg : downgradeFlag (env.server rf ⟨u, m, hd, withMethodAndBody m b⟩).status m
        = false := by
      rcases hst with h | h <;> rw [h] <;> simp [downgradeFlag]
    refine ⟨by simp [hdg], by simp [hdg], ?_, ?_⟩
    · simp only [hGet_nextHopHeaders, ecl]
      rw [if_neg (by
        rintro (⟨_, _, hmem⟩ | ⟨htrue, _⟩)
        · exact absurd hmem (by decide)
        · rw [hdg] at htrue
          exact Bool.false_ne_true htrue)]
    · simp only [hGet_nextHopHeaders, ect]
      rw [if_neg (by
        rintro (⟨_, _, hmem⟩ | ⟨htrue, _⟩)
        · exact absurd hmem (by decide)
        · rw [hdg] at htrue
          exact Bool.false_ne_true htrue)]

/-- Witness for C7 at the concrete 303-of-POST hop of the `scn5`
scenario. -/
theorem c7_witness :
    ∃ req1, (safeFetchLoop scn5Env scn5Opts 2 scnUrlA "POST" (some "payload")
        (headersOfInit scn5Opts.headers) 0).exchanges.get? 1 = some req1 ∧
      (downgradeFlag (scn5Env.server 0 ⟨scnUrlA, "POST",
          headersOfInit scn5Opts.headers,
          withMethodAndBody "POST" (some "payload")⟩).status "POST" = true →
        req1.method = "GET" ∧ req1.body = none ∧
        hGet "content-length" req1.headers = none ∧
        hGet "content-type" req1.headers = none) ∧
      ((scn5Env.server 0 ⟨scnUrlA, "POST", headersOfInit scn5Opts.headers,
          withMethodAndBody "POST" (some "payload")⟩).status = 307 ∨
          (scn5Env.server 0 ⟨scnUrlA, "POST", headersOfInit scn5Opts.headers,
            withMethodAndBody "POST" (some "payload")⟩).status = 308 →
        req1.method = "POST" ∧
        req1.body = withMethodAndBody "POST" (some "payload") ∧
        hGet "content-length" req1.headers =
          hGet "content-length" (headersOfInit scn5Opts.headers) ∧
        hGet "content-type" req1.headers =
          hGet "content-type" (headersOfInit scn5Opts.headers)) :=
  c7_method_body_policy scn5Env scn5Opts 0 scnUrlA "POST" (some "payload")
    (headersOfInit scn5Opts.headers) 0 "https://ok.example/b" scnUrlB (by decide)
    (by decide) (by decide) (by decide) (by decide) (by decide)

/-- **C10** With a nonpositive `timeoutMs` budget, `fetchWithTimeout`
never arms the wall-clock timer and can never produce the timeout error
— the exchange ends only by settling on its own or through a
caller-supplied abort signal; and the `streamableProxy` and
`gradioMcpHost` profiles carry `timeoutMs = 0` (which an absent override
leaves in force), so their upstream calls run with no timeout budget. -/
theorem c10_no_timeout_when_nonpositive :
    (∀ t : Int, t ≤ 0 → ∀ w : ExchangeWorld,
        (fetchWithTimeout t w).armedTimeout = false ∧
        (∀ ms, (fetchWithTimeout t w).outcome ≠ .timeoutError ms) ∧
        ((fetchWithTimeout t w).outcome = .rawAbortError → w.hasSignal = true)) ∧
    NetworkFetchProfiles.streamableProxy.timeoutMs = 0 ∧
    (∀ (hostname allowedProtocol : String) (nodeEnv : Option String),
        (NetworkFetchProfiles.gradioMcpHost hostname allowedProtocol nodeEnv).timeoutMs
          = 0) ∧
    (∀ profile : SafeFetchProfile,
        fetchWithProfileTimeoutMs profile none = profile.timeoutMs) := by
  refine ⟨?_, rfl, fun _ _ _ => rfl, fun _ => rfl⟩
  intro t ht w
  simp only [fetchWithTimeout]
  rw [if_pos ht]
  refine ⟨rfl, ?_, ?_⟩
  · intro ms
    dsimp only
    rcases hs : w.hasSignal with _ | _ <;>
      rcases htr : w.transportFails with _ | _ <;>
      rcases hw : w.completesAt with _ | c <;>
      rcases ha : w.signalAbortTime with _ | a <;>
      simp [hs, htr, hw, ha, optBefore] <;> split_ifs <;> simp
  · intro hout
    by_cases hs : w.hasSignal = true
    · exact hs
    · rw [Bool.not_eq_true] at hs
      dsimp only at hout
      rcases hw : w.completesAt with _ | c <;>
        rcases htr : w.transportFails with _ | _ <;>
        simp [hs, hw, htr, optBefore] at hout

/-- **C8 (counterexample)** The rewrite is not restricted to same-origin
URLs: with the sticky-routing header present, a Gradio API URL on a
foreign origin embedded in the text is rewritten too. -/
theorem c8_counterexample :
    rewriteReplicaUrlsInResult false scn8Result (some "host-r1") =
      { content :=
          [.textContent "see https://evil.example/--replicas/r1/gradio_api/info" "m"] } ∧
    rewriteReplicaUrlsInResult false scn8Result none = scn8Result := by
  constructor <;> decide

/-- **C8 (amended)** When the header is absent the result is returned
unchanged; non-text content entries are always returned unchanged; with
a captured replica id the result is either unchanged or has exactly its
textual content rewritten pointwise; and the URL pattern is
origin-agnostic: for every host (of allowed host characters), the
Gradio API URL on that host is rewritten to carry the replica id. -/
theorem c8_amended_rewrite :
    (∀ (noEnv : Bool) (r : CallToolResult), rewriteReplicaUrlsInResult noEnv r none = r) ∧
    (∀ (noEnv : Bool) (r : CallToolResult) (hdr : Option String) (i : Nat) (meta : String),
        r.content.get? i = some (.otherContent meta) →
        (rewriteReplicaUrlsInResult noEnv r hdr).content.get? i =
          some (.otherContent meta)) ∧
    (∀ (r : CallToolResult) (hdr : Option String) (rid : String),
        extractReplicaId hdr = some rid →
        rewriteReplicaUrlsInResult false r hdr = r ∨
        rewriteReplicaUrlsInResult false r hdr =
          { r with content := r.content.map (rewriteContentItem rid) }) ∧
    (∀ (rid : String) (host : Chars), host ≠ [] →
        (∀ c ∈ host, urlHostChar c = true ∧ c ≠ '/') →
        rewriteText rid (String.mk ("https://".data ++ host ++ "/gradio_api".data)) =
          String.mk ("https://".data ++ host ++ "/--replicas/".data ++ rid.data ++
            "/gradio_api".data)) := by
  refine ⟨?_, ?_, ?_, ?_⟩
  · intro noEnv r
    cases noEnv <;> rfl
  · intro noEnv r hdr i meta hget
    cases noEnv
    · cases hrid : extractReplicaId hdr with
      | none =>
        unfold rewriteReplicaUrlsInResult
        rw [hrid]
        exact hget
      | some rid =>
        simp only [rewriteReplicaUrlsInResult, hrid, Bool.false_eq_true, if_false]
        split
        · exact hget
        · rw [List.get?_map, hget]
          rfl
    · simpa only [rewriteReplicaUrlsInResult, if_pos rfl] using hget
  · intro r hdr rid hrid
    simp only [rewriteReplicaUrlsInResult, hrid, Bool.false_eq_true, if_false]
    split
    · exact Or.inl rfl
    · exact Or.inr rfl
  · intro rid host hne hh
    unfold rewriteText
    show String.mk (rewriteGo rid.data
      ("https://".data ++ host ++ "/gradio_api".data).length
      ("https://".data ++ host ++ "/gradio_api".data)) = _
    have hlen : ("https://".data ++ host ++ "/gradio_api".data).length =
        (host.length + 18) + 1 := by
      simp [List.length_append]
    rw [hlen]
    rw [show ("https://".data : Chars) = 'h' :: "ttps://".data from rfl,
      List.cons_append, List.cons_append, rewriteGo]
    have hlist : ('h' :: ("ttps://".data ++ host ++ "/gradio_api".data)) =
        "https://".data ++ (host ++ "/gradio_api".data) := by
      simp
    have hpre : "https://".data.isPrefixOf
        ('h' :: ("ttps://".data ++ host ++ "/gradio_api".data)) = true := by
      rw [hlist]
      exact isPrefixOf_append _ _
    rw [if_pos hpre]
    have hdrop : ('h' :: ("ttps://".data ++ host ++ "/gradio_api".data)).drop 8 =
        host ++ "/gradio_api".data := by
      rw [hlist, show (8 : Nat) = ("https://".data : Chars).length from rfl]
      exact List.drop_left _ _
    rw [hdrop, hostScan_append host [] hh (Or.inr hne)]
    simp [rewriteGo_nil, List.append_assoc]

/-- Witness for the amended C8: the foreign-origin host `evil.example`
is rewritten just the same. -/
theorem c8_witness :
    rewriteText "r1"
        (String.mk ("https://".data ++ "evil.example".data ++ "/gradio_api".data)) =
      String.mk ("https://".data ++ "evil.example".data ++ "/--replicas/".data ++
        "r1".data ++ "/gradio_api".data) :=
  c8_amended_rewrite.2.2.2 "r1" "evil.example".data (by decide) (by decide)

/-- **C9 (counterexample)** Outward names are not pairwise distinct: a
source whose upstream reports the same tool name twice yields two
definitions with the same prefixed outward name. -/
theorem c9_counterexample :
    (loadProxyToolSchemas [scn9SrcA, scn9SrcB] scn9Answers).map (fun d => d.toolName) =
      ["a_t", "a_t"] ∧
    ¬((loadProxyToolSchemas [scn9SrcA, scn9SrcB] scn9Answers).map
        (fun d => d.toolName)).Nodup := by
  constructor <;> decide

/-- **C9 (amended)** With more than one source every outward name is the
source id joined to the upstream tool name by an underscore; no
definition a source contributes is ever dropped from the registry; and
the outward names are pairwise distinct provided the source ids are
distinct and underscore-free and each source's own (valid) tool names
are distinct — upstream-side duplicates within one source survive
prefixing and are the only source of collisions. -/
theorem c9_amended_registry :
    (∀ (sources : List ProxyToolSource) (answers : ProxyToolSource → UpstreamOutcome)
        (d : ProxyToolDefinition),
        1 < sources.length →
        d ∈ loadProxyToolSchemas sources answers →
        d.toolName = d.proxyId ++ "_" ++ d.upstreamToolName) ∧
    (∀ (sources : List ProxyToolSource) (answers : ProxyToolSource → UpstreamOutcome)
        (s : ProxyToolSource) (d : ProxyToolDefinition),
        s ∈ sources →
        d ∈ fetchProxyToolSchemas s (answers s) (1 < sources.length) →
        d ∈ loadProxyToolSchemas sources answers) ∧
    (∀ (sources : List ProxyToolSource) (answers : ProxyToolSource → UpstreamOutcome),
        (sources.map (fun s => s.proxyId)).Nodup →
        (∀ s ∈ sources, '_' ∉ s.proxyId.data) →
        (∀ s ∈ sources,
          ((fetchProxyToolSchemas s (answers s) (1 < sources.length)).map
            (fun d => d.upstreamToolName)).Nodup) →
        ((loadProxyToolSchemas sources answers).map (fun d => d.toolName)).Nodup) := by
  refine ⟨?_, ?_, ?_⟩
  · intro sources answers d hlen hd
    have hne : sources ≠ [] := by
      intro h
      rw [h] at hlen
      simp at hlen
    simp only [loadProxyToolSchemas, if_neg hne] at hd
    obtain ⟨s, hs, hds⟩ := List.mem_flatMap.mp hd
    have hm := mem_fetchProxyToolSchemas hds
    rw [hm.2, if_pos (show decide (1 < sources.length) = true by simpa using hlen), hm.1]
  · intro sources answers s d hs hd
    have hne : sources ≠ [] := by
      intro h
      rw [h] at hs
      simp at hs
    simp only [loadProxyToolSchemas, if_neg hne]
    exact List.mem_flatMap.mpr ⟨s, hs, hd⟩
  · intro sources answers hid hu hnames
    by_cases hempty : sources = []
    · subst hempty
      simp [loadProxyToolSchemas]
    · simp only [loadProxyToolSchemas, if_neg hempty]
      refine flatMap_toolNames_nodup sources answers _ hid hu hnames ?_
      by_cases hlen : 1 < sources.length
      · exact Or.inl (by simpa using hlen)
      · exact Or.inr (by omega)

/-- Witness for the amended C9 at a concrete two-source registry with one
tool each: outward names `a_t`, `b_t` are distinct. -/
theorem c9_witness :
    ((loadProxyToolSchemas [scn9SrcA, scn9SrcB] scn9AnswersOk).map
      (fun d => d.toolName)).Nodup :=
  c9_amended_registry.2.2 [scn9SrcA, scn9SrcB] scn9AnswersOk (by decide) (by decide)
    (by decide)

/-- Witness for C10 at the zero budget and a signal-free world. -/
theorem c10_witness :
    (fetchWithTimeout 0 {}).armedTimeout = false ∧
    (∀ ms, (fetchWithTimeout 0 {}).outcome ≠ .timeoutError ms) ∧
    ((fetchWithTimeout 0 {}).outcome = .rawAbortError →
      ({} : ExchangeWorld).hasSignal = true) :=
  c10_no_timeout_when_nonpositive.1 0 (by decide) {}

end HfMcp
